import Mathlib

/-!
Verification of the ts-chan concurrency-primitives library: a shallow
embedding of its `CircularBuffer`, `Chan` and `Select` components, with
theorems settling the frozen claims about the natural-language spec.

Conventions used throughout:
* JavaScript `throw` is modelled with `Except`; a thrown value may be
  `null`/`undefined` in JS, so thrown values have type `Option JsErr`
  (`none` models a nullish thrown value).
* Object identity (`===`) of callbacks is modelled by a numeric `id`
  carried by each callback record; error-object identity for the
  close-sentinel check is modelled structurally by the `CloseReaction`
  type (rethrowing the exact error object passed in is its own
  constructor, distinct from throwing any other value).
* Callbacks are data records describing the outcome of each possible
  invocation, which is faithful to the concrete callbacks the library
  itself builds (e.g. the callback created by `Chan.send` always returns
  its captured value on `ok=true` and rethrows the passed error on
  `ok=false`).
-/

namespace TsChan

/-- Distinguished JS error values thrown by the library (`protocol.ts`,
`buffer.ts`, `select.ts`), plus `custom n` standing for arbitrary
user-thrown error objects. -/
inductive JsErr where
  /-- `SendOnClosedChannelError` (protocol.ts). -/
  | sendOnClosedChannel
  /-- `CloseOfClosedChannelError` (protocol.ts). -/
  | closeOfClosedChannel
  /-- `Error('js-chan: buffer full')` (buffer.ts `push`). -/
  | bufferFull
  /-- `Error('js-chan: invalid capacity: …')` (buffer.ts constructor). -/
  | invalidCapacity
  /-- `Error('ts-chan: chan: send: error closing channel')` /
  `'ts-chan: chan: recv: error closing channel'` fallback in `close`. -/
  | errorClosingChannel
  /-- `Error('ts-chan: select: cases in use')`. -/
  | casesInUse
  /-- `Error('ts-chan: select: case not found')`. -/
  | caseNotFound
  /-- `Error('ts-chan: select: case not ready')`. -/
  | caseNotReady
  /-- `Error('ts-chan: select: case not receivable')`. -/
  | caseNotReceivable
  /-- the `'ts-chan: select: … invalid index'` internal error of `wait`. -/
  | invalidIndex
  /-- any of the `'unexpected error that should never happen'` internal
  sanity-check errors of `select.ts`. -/
  | internalError
  /-- an abort (cancellation) reason supplied by the caller. -/
  | abortReason (n : Nat)
  /-- an arbitrary user error object, tagged for identity. -/
  | custom (n : Nat)
  deriving DecidableEq, Repr

/-- A thrown JS value: `none` models throwing `null`/`undefined`. -/
abbrev Thrown := Option JsErr

instance {ε β : Type} [DecidableEq ε] [DecidableEq β] :
    DecidableEq (Except ε β) := fun x y =>
  match x, y with
  | .ok a, .ok b =>
    if h : a = b then .isTrue (by rw [h])
    else .isFalse (by intro hc; cases hc; exact h rfl)
  | .error a, .error b =>
    if h : a = b then .isTrue (by rw [h])
    else .isFalse (by intro hc; cases hc; exact h rfl)
  | .ok _, .error _ => .isFalse (by intro hc; cases hc)
  | .error _, .ok _ => .isFalse (by intro hc; cases hc)

/-! ## CircularBuffer (buffer.ts)

The buffer array `buffer : T[]` of fixed length `capacity` is modelled as
a `List (Option α)` of that length; a slot holds `none` where the JS
array holds `undefined` (unassigned or tombstoned by `shift`). -/

/-- State of `CircularBuffer<T>` (buffer.ts): fields `capacity`,
`buffer`, `head`, `tail`, `size`. -/
structure CircularBuffer (α : Type) where
  capacity : Nat
  buffer : List (Option α)
  head : Nat
  tail : Nat
  size : Nat
  deriving DecidableEq, Repr

namespace CircularBuffer

/-- The state built by `new CircularBuffer(capacity)` for a valid
capacity (all slots unassigned, indices zeroed). -/
def init (α : Type) (capacity : Nat) : CircularBuffer α :=
  { capacity := capacity
    buffer := List.replicate capacity none
    head := 0
    tail := 0
    size := 0 }

/-- The constructor `new CircularBuffer(capacity)`: throws unless the
capacity is a positive (safe) integer.  Over `Nat` the only invalid
capacity is `0`. -/
def make (α : Type) (capacity : Nat) : Except Thrown (CircularBuffer α) :=
  if capacity = 0 then .error (some .invalidCapacity)
  else .ok (init α capacity)

variable {α : Type}

/-- Getter `empty`: `size === 0`. -/
def empty (b : CircularBuffer α) : Bool := b.size == 0

/-- Getter `full`: `size === capacity`. -/
def full (b : CircularBuffer α) : Bool := b.size == b.capacity

/-- Getter `length`: the number of stored elements. -/
def length (b : CircularBuffer α) : Nat := b.size

/-- `push(item)`: throws if `size >= capacity`, else stores at `tail`,
advances `tail` modulo `capacity` and increments `size`. -/
def push (b : CircularBuffer α) (item : α) : Except Thrown (CircularBuffer α) :=
  if b.size ≥ b.capacity then .error (some .bufferFull)
  else .ok
    { b with
      buffer := b.buffer.set b.tail (some item)
      tail := (b.tail + 1) % b.capacity
      size := b.size + 1 }

/-- `shift()`: returns `undefined` when empty, else removes and returns
the element at `head`, tombstoning its slot and advancing `head`. -/
def shift (b : CircularBuffer α) : Option α × CircularBuffer α :=
  if b.size = 0 then (none, b)
  else
    (b.buffer.getD b.head none,
      { b with
        buffer := b.buffer.set b.head none
        head := (b.head + 1) % b.capacity
        size := b.size - 1 })

/-- `peek()`: the oldest element without removal, `undefined` if empty. -/
def peek (b : CircularBuffer α) : Option α :=
  if b.size = 0 then none else b.buffer.getD b.head none

/-- Structural well-formedness of a buffer state: reachable states of
buffer.ts satisfy it (proved below). -/
def WF (b : CircularBuffer α) : Prop :=
  0 < b.capacity ∧ b.buffer.length = b.capacity ∧ b.head < b.capacity ∧
    b.size ≤ b.capacity ∧ b.tail = (b.head + b.size) % b.capacity

instance (b : CircularBuffer α) : Decidable b.WF := by
  unfold WF; infer_instance

/-- The abstract content of the buffer, oldest first (slot values, which
are all assigned in well-formed states). -/
def toListOpt (b : CircularBuffer α) : List (Option α) :=
  (List.range b.size).map fun k => b.buffer.getD ((b.head + k) % b.capacity) none

end CircularBuffer

/-- One operation of the push/shift fragment of the buffer interface. -/
inductive BufOp (α : Type) where
  | push (x : α)
  | shift
  deriving DecidableEq, Repr

/-- Observable outcome of one buffer operation. -/
inductive BufEvent (α : Type) where
  /-- `push` returned normally. -/
  | pushOk
  /-- `push` threw (buffer full). -/
  | pushFail
  /-- `shift` returned this value (`none` = `undefined`, empty). -/
  | shifted (r : Option α)
  deriving DecidableEq, Repr

/-- Run a sequence of push/shift operations on a buffer, collecting the
per-operation outcomes.  A failed `push` leaves the state unchanged
(the JS `throw` happens before any mutation). -/
def CircularBuffer.runOps {α : Type} :
    CircularBuffer α → List (BufOp α) → CircularBuffer α × List (BufEvent α)
  | b, [] => (b, [])
  | b, .push x :: ops =>
    match b.push x with
    | .error _ =>
      let (b₂, evs) := runOps b ops
      (b₂, .pushFail :: evs)
    | .ok b₁ =>
      let (b₂, evs) := runOps b₁ ops
      (b₂, .pushOk :: evs)
  | b, .shift :: ops =>
    let (r, b₁) := b.shift
    let (b₂, evs) := runOps b₁ ops
    (b₂, .shifted r :: evs)

/-- The claimed behaviour, written from the spec's words: a FIFO queue of
maximal length `c`; `push` fails exactly when the stored count equals
`c`; `shift` returns the oldest element or reports absence. -/
def specQueueStep {α : Type} (c : Nat) (l : List α) : BufOp α → List α × BufEvent α
  | .push x => if l.length = c then (l, .pushFail) else (l ++ [x], .pushOk)
  | .shift =>
    match l with
    | [] => ([], .shifted none)
    | h :: t => (t, .shifted (some h))

/-- Run the spec-level queue over an operation sequence. -/
def specQueueRun {α : Type} (c : Nat) : List α → List (BufOp α) → List α × List (BufEvent α)
  | l, [] => (l, [])
  | l, op :: ops =>
    let (l₁, ev) := specQueueStep c l op
    let (l₂, evs) := specQueueRun c l₁ ops
    (l₂, ev :: evs)

/-! ### Buffer correctness lemmas -/

theorem getD_set_self {β : Type} (l : List β) (i : Nat) (a d : β) (h : i < l.length) :
    (l.set i a).getD i d = a := by
  simp [List.getD_eq_getElem?_getD, List.getElem?_set_self, h]

theorem getD_set_ne {β : Type} (l : List β) (i j : Nat) (a d : β) (h : i ≠ j) :
    (l.set i a).getD j d = l.getD j d := by
  simp [List.getD_eq_getElem?_getD, List.getElem?_set_ne h]

theorem add_mod_inj {n h a b : Nat} (ha : a < n) (hb : b < n)
    (hmod : (h + a) % n = (h + b) % n) : a = b := by
  have h1 : a ≡ b [MOD n] := Nat.ModEq.add_left_cancel' h hmod
  have h2 : a % n = b % n := h1
  rwa [Nat.mod_eq_of_lt ha, Nat.mod_eq_of_lt hb] at h2

namespace CircularBuffer

variable {α : Type}

theorem toListOpt_length (b : CircularBuffer α) : b.toListOpt.length = b.size := by
  simp [toListOpt]

theorem wf_init (α : Type) (c : Nat) (hc : 0 < c) : (init α c).WF := by
  simp [init, WF, hc]

theorem toListOpt_init (α : Type) (c : Nat) : (init α c).toListOpt = [] := by
  simp [init, toListOpt]

theorem size_eq_of_abs {b : CircularBuffer α} {l : List α}
    (habs : b.toListOpt = l.map some) : b.size = l.length := by
  have := congrArg List.length habs
  simpa [toListOpt_length] using this

/-- `push` on a full buffer throws (the spec's "fails if full"). -/
theorem push_full {b : CircularBuffer α} {l : List α} (_hwf : b.WF)
    (habs : b.toListOpt = l.map some) (hfull : l.length = b.capacity) (x : α) :
    b.push x = .error (some .bufferFull) := by
  have hsz := size_eq_of_abs habs
  simp [push, hsz, hfull]

/-- `push` on a non-full buffer succeeds and appends to the abstract queue. -/
theorem push_notFull {b : CircularBuffer α} {l : List α} (hwf : b.WF)
    (habs : b.toListOpt = l.map some) (hne : l.length ≠ b.capacity) (x : α) :
    ∃ b₁, b.push x = .ok b₁ ∧ b₁.WF ∧ b₁.capacity = b.capacity ∧
      b₁.toListOpt = (l ++ [x]).map some := by
  obtain ⟨hcpos, hlen, hhead, hsize, htail⟩ := hwf
  have hsz := size_eq_of_abs habs
  have hlt : b.size < b.capacity := lt_of_le_of_ne hsize (by omega)
  have htl : b.tail < b.buffer.length := by
    rw [hlen, htail]; exact Nat.mod_lt _ hcpos
  have hmain : (List.range b.size).map
      (fun k => (b.buffer.set b.tail (some x)).getD ((b.head + k) % b.capacity) none)
      = l.map some := by
    rw [← habs]
    apply List.map_congr_left
    intro k hk
    have hk' : k < b.size := List.mem_range.mp hk
    apply getD_set_ne
    intro hcontra
    rw [htail] at hcontra
    have : b.size = k := add_mod_inj (by omega) (by omega) hcontra
    omega
  have hlast : (b.buffer.set b.tail (some x)).getD ((b.head + b.size) % b.capacity) none
      = some x := by
    rw [← htail]; exact getD_set_self _ _ _ _ htl
  refine ⟨{ b with
      buffer := b.buffer.set b.tail (some x)
      tail := (b.tail + 1) % b.capacity
      size := b.size + 1 }, ?_, ?_, rfl, ?_⟩
  · simp [push, Nat.not_le.mpr hlt]
  · refine ⟨hcpos, by simp [hlen], hhead,
      by show b.size + 1 ≤ b.capacity; omega, ?_⟩
    show (b.tail + 1) % b.capacity = (b.head + (b.size + 1)) % b.capacity
    rw [htail, Nat.mod_add_mod]
    congr 1
  · show (List.range (b.size + 1)).map
        (fun k => (b.buffer.set b.tail (some x)).getD ((b.head + k) % b.capacity) none)
      = (l ++ [x]).map some
    rw [List.range_succ, List.map_append, List.map_append, hmain]
    simp only [List.map_cons, List.map_nil]
    rw [hlast]

/-- `shift` on an empty buffer returns `undefined` and leaves it unchanged. -/
theorem shift_nil {b : CircularBuffer α} (habs : b.toListOpt = ([] : List α).map some) :
    b.shift = (none, b) := by
  have hsz := size_eq_of_abs habs
  simp at hsz
  simp [shift, hsz]

/-- `shift` on a non-empty buffer removes and returns the oldest element. -/
theorem shift_cons {b : CircularBuffer α} {h : α} {t : List α} (hwf : b.WF)
    (habs : b.toListOpt = (h :: t).map some) :
    ∃ b₁, b.shift = (some h, b₁) ∧ b₁.WF ∧ b₁.capacity = b.capacity ∧
      b₁.toListOpt = t.map some := by
  obtain ⟨hcpos, hlen, hhead, hsize, htail⟩ := hwf
  have hsz := size_eq_of_abs habs
  simp at hsz
  have hszpos : b.size ≠ 0 := by omega
  have hmod0 : b.head % b.capacity = b.head := Nat.mod_eq_of_lt hhead
  have hexp : b.toListOpt
      = (b.buffer.getD b.head none) ::
        ((List.range (b.size - 1)).map
          (fun k => b.buffer.getD ((b.head + (k + 1)) % b.capacity) none)) := by
    simp only [toListOpt]
    have hs : b.size = (b.size - 1) + 1 := by omega
    rw [hs, List.range_succ_eq_map]
    simp only [List.map_cons, List.map_map, Function.comp_def, Nat.add_zero, hmod0]
    simp only [Nat.succ_eq_add_one, Nat.add_sub_cancel]
  rw [habs] at hexp
  have hheadval : b.buffer.getD b.head none = some h := by
    have h1 := congrArg (fun z => List.headD z none) hexp
    simpa using h1.symm
  have htailval : (List.range (b.size - 1)).map
      (fun k => b.buffer.getD ((b.head + (k + 1)) % b.capacity) none) = t.map some := by
    have h1 := congrArg List.tail hexp
    simpa using h1.symm
  refine ⟨{ b with
      buffer := b.buffer.set b.head none
      head := (b.head + 1) % b.capacity
      size := b.size - 1 }, ?_, ?_, rfl, ?_⟩
  · rw [shift, if_neg hszpos, hheadval]
  · refine ⟨hcpos, by simp [hlen], Nat.mod_lt _ hcpos,
      by show b.size - 1 ≤ b.capacity; omega, ?_⟩
    show b.tail = ((b.head + 1) % b.capacity + (b.size - 1)) % b.capacity
    rw [htail, Nat.mod_add_mod]
    congr 1
    omega
  · show (List.range (b.size - 1)).map
        (fun k => (b.buffer.set b.head none).getD
          (((b.head + 1) % b.capacity + k) % b.capacity) none)
      = t.map some
    rw [← htailval]
    apply List.map_congr_left
    intro k hk
    have hk' : k < b.size - 1 := List.mem_range.mp hk
    have hidx : ((b.head + 1) % b.capacity + k) % b.capacity
        = (b.head + (k + 1)) % b.capacity := by
      rw [Nat.mod_add_mod]
      congr 1
      omega
    rw [hidx]
    apply getD_set_ne
    intro hcontra
    have hcontra' : (b.head + 0) % b.capacity = (b.head + (k + 1)) % b.capacity := by
      rw [Nat.add_zero, hmod0]
      exact hcontra
    have : (0 : Nat) = k + 1 := add_mod_inj hcpos (by omega) hcontra'
    omega

/-- Simulation: running any push/shift sequence on a well-formed concrete
buffer matches the spec-level bounded FIFO queue step for step. -/
theorem runOps_sim {α : Type} (c : Nat) :
    ∀ (ops : List (BufOp α)) (b : CircularBuffer α) (l : List α),
    b.WF → b.capacity = c → b.toListOpt = l.map some →
    (b.runOps ops).2 = (specQueueRun c l ops).2 ∧
    (b.runOps ops).1.WF ∧ (b.runOps ops).1.capacity = c ∧
    (b.runOps ops).1.toListOpt = ((specQueueRun c l ops).1).map some := by
  intro ops
  induction ops with
  | nil =>
    intro b l hwf hcap habs
    exact ⟨rfl, hwf, hcap, habs⟩
  | cons op ops ih =>
    intro b l hwf hcap habs
    cases op with
    | push x =>
      by_cases hfull : l.length = c
      · have herr := push_full hwf habs (hcap ▸ hfull) x
        have := ih b l hwf hcap habs
        simp only [runOps, herr, specQueueRun, specQueueStep, if_pos hfull]
        exact ⟨by simp [this.1], this.2.1, this.2.2.1, this.2.2.2⟩
      · obtain ⟨b₁, hok, hwf₁, hcap₁, habs₁⟩ := push_notFull hwf habs (hcap ▸ hfull) x
        have := ih b₁ (l ++ [x]) hwf₁ (hcap₁.trans hcap) habs₁
        simp only [runOps, hok, specQueueRun, specQueueStep, if_neg hfull]
        exact ⟨by simp [this.1], this.2.1, this.2.2.1, this.2.2.2⟩
    | shift =>
      cases l with
      | nil =>
        have hsh := shift_nil habs
        have := ih b [] hwf hcap habs
        simp only [runOps, hsh, specQueueRun, specQueueStep]
        exact ⟨by simp [this.1], this.2.1, this.2.2.1, this.2.2.2⟩
      | cons h t =>
        obtain ⟨b₁, hsh, hwf₁, hcap₁, habs₁⟩ := shift_cons hwf habs
        have := ih b₁ t hwf₁ (hcap₁.trans hcap) habs₁
        simp only [runOps, hsh, specQueueRun, specQueueStep]
        exact ⟨by simp [this.1], this.2.1, this.2.2.1, this.2.2.2⟩

end CircularBuffer

/-! ## Chan (chan.ts)

Callbacks held in the channel queues are modelled as data records
describing the outcome of each possible invocation; object identity
(`===`) is modelled by a numeric `id`. -/

/-- Behaviour of a sender callback when invoked as `cb(undefined, true)`:
it either returns a value or throws. -/
inductive OkReaction (α : Type) where
  | ret (v : α)
  | thr (e : Thrown)
  deriving DecidableEq, Repr

/-- Behaviour of a sender callback when invoked as `cb(err, false)`
(where `err` is the error object supplied by the channel). `rethrow`
models `throw err` with the identical (`===`) error object — the
sentinel case swallowed by `close`; `throwOther` models throwing any
other value. -/
inductive FailReaction where
  | rethrow
  | silent
  | throwOther (e : Thrown)
  deriving DecidableEq, Repr

/-- A queued sender callback (`SenderCallback<T>` of protocol.ts). -/
structure SenderCb (α : Type) where
  id : Nat
  onOk : OkReaction α
  onFail : FailReaction
  deriving DecidableEq, Repr

/-- A queued receiver callback (`ReceiverCallback<T>` of protocol.ts):
`onVal` is its outcome when invoked as `cb(value, true)` (`none` =
returns normally, `some e` = throws `e`); `onClose` likewise for
`cb(default, false)`. -/
structure ReceiverCb (α : Type) where
  id : Nat
  onVal : Option Thrown
  onClose : Option Thrown
  deriving DecidableEq, Repr

/-- The result object `IteratorResult<T, T | undefined>`: `done` is
`none` where the JS object has no `done` property. -/
structure IterRes (α : Type) where
  value : Option α
  done : Option Bool
  deriving DecidableEq, Repr

/-- State of `Chan<T>` (chan.ts): `#buffer` (absent when capacity 0),
`#newDefaultValue` (modelled by the value it would produce, `none` when
absent), `#open`, `#sends`, `#recvs`. -/
structure Chan (α : Type) where
  buffer : Option (CircularBuffer α)
  defaultValue : Option α
  isOpen : Bool
  sends : List (SenderCb α)
  recvs : List (ReceiverCb α)
  deriving DecidableEq, Repr

namespace Chan

/-- `new Chan(capacity, newDefaultValue?)`. -/
def new (α : Type) (capacity : Nat) (defaultValue : Option α) : Chan α :=
  { buffer := if capacity = 0 then none else some (CircularBuffer.init α capacity)
    defaultValue := defaultValue
    isOpen := true
    sends := []
    recvs := [] }

variable {α : Type}

/-- Getter `concurrency`: `#sends.length - #recvs.length` (an integer;
positive = waiting senders, negative = waiting receivers). -/
def concurrency (ch : Chan α) : Int :=
  (ch.sends.length : Int) - (ch.recvs.length : Int)

/-- The loop of `#fillBuffer`: while the buffer is not full and senders
are queued, shift a sender, invoke it with `ok=true` and push its return
value.  A throwing sender propagates (the code does not catch here),
with the sender already consumed. -/
def fillLoop : List (SenderCb α) → CircularBuffer α →
    CircularBuffer α × List (SenderCb α) × Option Thrown
  | [], buf => (buf, [], none)
  | cb :: rest, buf =>
    if buf.full then (buf, cb :: rest, none)
    else
      match cb.onOk with
      | .thr e => (buf, rest, some e)
      | .ret v =>
        match buf.push v with
        | .error e => (buf, rest, some e)
        | .ok buf₁ => fillLoop rest buf₁

/-- `#fillBuffer()`: no-op without a buffer. -/
def fillBuffer (ch : Chan α) : Chan α × Option Thrown :=
  match ch.buffer with
  | none => (ch, none)
  | some buf =>
    let (buf₁, sends₁, e) := fillLoop ch.sends buf
    ({ ch with buffer := some buf₁, sends := sends₁ }, e)

/-- `trySend(value)`: throws on a closed channel; hands the value to the
first waiting receiver if any; else pushes to the buffer if it has room
(after flushing queued senders into the buffer); else returns false. -/
def trySend (ch : Chan α) (value : α) : Chan α × Except Thrown Bool :=
  if !ch.isOpen then (ch, .error (some .sendOnClosedChannel))
  else
    match ch.recvs with
    | r :: rest =>
      let ch₁ := { ch with recvs := rest }
      match r.onVal with
      | some e => (ch₁, .error e)
      | none => (ch₁, .ok true)
    | [] =>
      let (ch₁, e) := ch.fillBuffer
      match e with
      | some e => (ch₁, .error e)
      | none =>
        match ch₁.buffer with
        | some buf =>
          if buf.full then (ch₁, .ok false)
          else
            match buf.push value with
            | .ok buf₂ => ({ ch₁ with buffer := some buf₂ }, .ok true)
            | .error e => (ch₁, .error e)
        | none => (ch₁, .ok false)

/-- The tail of `tryRecv` after the buffer check: take from a waiting
sender, else report closed, else report not-ready (`none`). -/
def tryRecvRest (ch : Chan α) : Chan α × Except Thrown (Option (IterRes α)) :=
  match ch.sends with
  | cb :: rest =>
    let ch₁ := { ch with sends := rest }
    match cb.onOk with
    | .thr e => (ch₁, .error e)
    | .ret v => (ch₁, .ok (some { value := some v, done := none }))
  | [] =>
    if !ch.isOpen then
      (ch, .ok (some { value := ch.defaultValue, done := some true }))
    else (ch, .ok none)

/-- `tryRecv()`: flush senders into the buffer, pop the oldest buffered
value if any (flushing again afterwards), else defer to
`tryRecvRest`. -/
def tryRecv (ch : Chan α) : Chan α × Except Thrown (Option (IterRes α)) :=
  let (ch₁, e) := ch.fillBuffer
  match e with
  | some e => (ch₁, .error e)
  | none =>
    match ch₁.buffer with
    | some buf =>
      if buf.empty then ch₁.tryRecvRest
      else
        let (r, buf₂) := buf.shift
        let ch₂ := { ch₁ with buffer := some buf₂ }
        let (ch₃, e₂) := ch₂.fillBuffer
        match e₂ with
        | some e₂ => (ch₃, .error e₂)
        | none => (ch₃, .ok (some { value := r, done := none }))
    | none => ch₁.tryRecvRest

/-- Outcome of `addReceiver`: either the callback was enqueued (returns
true in JS) or it was invoked inline with the given arguments. -/
inductive AddRecvOut (α : Type) where
  | enqueued
  | delivered (value : Option α) (ok : Bool)
  deriving DecidableEq, Repr

/-- The tail of `addReceiver` when the buffer is empty or absent. -/
def addReceiverRest (ch : Chan α) (cb : ReceiverCb α) :
    Chan α × Except Thrown (AddRecvOut α) :=
  match ch.sends with
  | scb :: rest =>
    let ch₁ := { ch with sends := rest }
    match scb.onOk with
    | .thr e => (ch₁, .error e)
    | .ret v =>
      match cb.onVal with
      | some e => (ch₁, .error e)
      | none => (ch₁, .ok (.delivered (some v) true))
  | [] =>
    if !ch.isOpen then
      match cb.onClose with
      | some e => (ch, .error e)
      | none => (ch, .ok (.delivered ch.defaultValue false))
    else ({ ch with recvs := ch.recvs ++ [cb] }, .ok .enqueued)

/-- `addReceiver(callback)` (chan.ts). -/
def addReceiver (ch : Chan α) (cb : ReceiverCb α) :
    Chan α × Except Thrown (AddRecvOut α) :=
  let (ch₁, e) := ch.fillBuffer
  match e with
  | some e => (ch₁, .error e)
  | none =>
    match ch₁.buffer with
    | some buf =>
      if buf.empty then ch₁.addReceiverRest cb
      else
        let (r, buf₂) := buf.shift
        let ch₂ := { ch₁ with buffer := some buf₂ }
        match cb.onVal with
        | some e₂ => (ch₂, .error e₂)
        | none =>
          let (ch₃, e₃) := ch₂.fillBuffer
          match e₃ with
          | some e₃ => (ch₃, .error e₃)
          | none => (ch₃, .ok (.delivered r true))
    | none => ch₁.addReceiverRest cb

/-- Outcome of `addSender`: enqueued (returns true in JS) or invoked
inline, its value delivered to a waiting receiver or to the buffer. -/
inductive AddSendOut where
  | enqueued
  | deliveredToReceiver
  | deliveredToBuffer
  deriving DecidableEq, Repr

/-- `addSender(callback)` (chan.ts). -/
def addSender (ch : Chan α) (cb : SenderCb α) :
    Chan α × Except Thrown AddSendOut :=
  if !ch.isOpen then (ch, .error (some .sendOnClosedChannel))
  else
    match ch.recvs with
    | r :: rest =>
      let ch₁ := { ch with recvs := rest }
      match cb.onOk with
      | .thr e => (ch₁, .error e)
      | .ret _ =>
        match r.onVal with
        | some e => (ch₁, .error e)
        | none => (ch₁, .ok .deliveredToReceiver)
    | [] =>
      let (ch₁, e) := ch.fillBuffer
      match e with
      | some e => (ch₁, .error e)
      | none =>
        match ch₁.buffer with
        | some buf =>
          if buf.full then
            ({ ch₁ with sends := ch₁.sends ++ [cb] }, .ok .enqueued)
          else
            match cb.onOk with
            | .thr e => (ch₁, .error e)
            | .ret v =>
              match buf.push v with
              | .error e => (ch₁, .error e)
              | .ok buf₂ =>
                ({ ch₁ with buffer := some buf₂ }, .ok .deliveredToBuffer)
        | none => ({ ch₁ with sends := ch₁.sends ++ [cb] }, .ok .enqueued)

end Chan

/-! ### Last-occurrence removal: spec-level description -/

/-- The claim's description of `removeSender`/`removeReceiver`: remove
the last occurrence of the callback (by identity), leaving everything
else unchanged; a list without a matching entry is returned unchanged
(`List.eraseP` leaves such a list unchanged). -/
def eraseLastOcc {β : Type} (idOf : β → Nat) (q : List β) (cid : Nat) : List β :=
  (q.reverse.eraseP fun b => idOf b == cid).reverse

/-- `Array.prototype.lastIndexOf` over callback ids, searching the whole
array from the end (`lastIndexOf(cb, -1)` searches from `length - 1`):
returns the greatest index whose element has id `cid`. -/
def lastIdxOf {β : Type} (idOf : β → Nat) (cid : Nat) : List β → Option Nat
  | [] => none
  | x :: xs =>
    match lastIdxOf idOf cid xs with
    | some j => some (j + 1)
    | none => if idOf x = cid then some 0 else none

/-- The shared shape of `removeSender`/`removeReceiver` (chan.ts): return
unchanged when empty; pop when the last element is the callback; else
`lastIndexOf` + `splice(i, 1)`. -/
def removeLastById {β : Type} (idOf : β → Nat) (q : List β) (cid : Nat) : List β :=
  match q.getLast? with
  | none => q
  | some lastCb =>
    if idOf lastCb = cid then q.dropLast
    else
      match lastIdxOf idOf cid q with
      | none => q
      | some i => q.eraseIdx i

namespace Chan

variable {α : Type}

/-- `removeSender(callback)`: remove the last matching occurrence. -/
def removeSender (ch : Chan α) (cid : Nat) : Chan α :=
  { ch with sends := removeLastById SenderCb.id ch.sends cid }

/-- `removeReceiver(callback)`: remove the last matching occurrence. -/
def removeReceiver (ch : Chan α) (cid : Nat) : Chan α :=
  { ch with recvs := removeLastById ReceiverCb.id ch.recvs cid }

/-! ### close (chan.ts)

`close` notifies queued callbacks; the notifications are part of the
observable behaviour, so the model returns the invocation trace. -/

/-- One notification performed during `close`: which callback (by id)
was invoked, and with which `ok` flag. -/
structure CloseEvent where
  id : Nat
  ok : Bool
  deriving DecidableEq, Repr

/-- `lastError = e ?? lastError ?? new Error('… error closing channel')`:
a non-nullish thrown value replaces the previous one; a nullish thrown
value keeps the previous error, or the generic fallback. -/
def updateLastError (lastError : Option JsErr) (e : Thrown) : Option JsErr :=
  match e with
  | some v => some v
  | none =>
    match lastError with
    | some l => some l
    | none => some .errorClosingChannel

/-- The receivers loop of `close`: every queued receiver is invoked with
`(default, false)`; exceptions are captured into `lastError`. -/
def closeRecvLoop : List (ReceiverCb α) → Option JsErr → List CloseEvent →
    Option JsErr × List CloseEvent
  | [], lastError, evs => (lastError, evs)
  | cb :: rest, lastError, evs =>
    let lastError₁ :=
      match cb.onClose with
      | none => lastError
      | some e => updateLastError lastError e
    closeRecvLoop rest lastError₁ (evs ++ [⟨cb.id, false⟩])

/-- The buffer-drain loop of `close`: while the buffer has room and
senders are queued, shift a sender and invoke it with `ok=true`; a
normal return is pushed to the buffer; an exception is captured and the
loop continues (`continue`). -/
def closeDrainLoop : List (SenderCb α) → CircularBuffer α → Option JsErr →
    List CloseEvent →
    CircularBuffer α × List (SenderCb α) × Option JsErr × List CloseEvent
  | [], buf, lastError, evs => (buf, [], lastError, evs)
  | cb :: rest, buf, lastError, evs =>
    if buf.full then (buf, cb :: rest, lastError, evs)
    else
      match cb.onOk with
      | .thr e =>
        closeDrainLoop rest buf (updateLastError lastError e) (evs ++ [⟨cb.id, true⟩])
      | .ret v =>
        match buf.push v with
        | .error _ => (buf, rest, lastError, evs ++ [⟨cb.id, true⟩])
        | .ok buf₁ => closeDrainLoop rest buf₁ lastError (evs ++ [⟨cb.id, true⟩])

/-- The rejection loop of `close`: each remaining queued sender is
invoked with `(err, false)` where `err` is the single fresh
`SendOnClosedChannelError`; an exception identical (`===`) to `err` is
swallowed, any other is captured into `lastError`. -/
def closeRejectLoop : List (SenderCb α) → Option JsErr → List CloseEvent →
    Option JsErr × List CloseEvent
  | [], lastError, evs => (lastError, evs)
  | cb :: rest, lastError, evs =>
    let lastError₁ :=
      match cb.onFail with
      | .rethrow => lastError
      | .silent => lastError
      | .throwOther e => updateLastError lastError e
    closeRejectLoop rest lastError₁ (evs ++ [⟨cb.id, false⟩])

/-- `close()` (chan.ts).  Returns the final channel state, the thrown
value if any (`CloseOfClosedChannelError` on a closed channel, else the
captured `lastError` if any), and the notification trace. -/
def close (ch : Chan α) : Chan α × Option JsErr × List CloseEvent :=
  if !ch.isOpen then (ch, some .closeOfClosedChannel, [])
  else
    let ch₀ := { ch with isOpen := false }
    match ch₀.recvs with
    | _ :: _ =>
      let (lastError, evs) := closeRecvLoop ch₀.recvs none []
      ({ ch₀ with recvs := [] }, lastError, evs)
    | [] =>
      let (buf₁, sends₁, le₁, evs₁) :=
        match ch₀.buffer with
        | none => (none, ch₀.sends, none, [])
        | some buf =>
          let (b, s, le, evs) := closeDrainLoop ch₀.sends buf none []
          (some b, s, le, evs)
      match sends₁ with
      | _ :: _ =>
        let (le₂, evs₂) := closeRejectLoop sends₁ le₁ evs₁
        ({ ch₀ with buffer := buf₁, sends := [] }, le₂, evs₂)
      | [] => ({ ch₀ with buffer := buf₁, sends := [] }, le₁, evs₁)

/-! ### send / recv with cancellation (chan.ts)

`send(value, abort?)` and `recv(abort?)` are split into their
synchronous phases: the call itself (which may resolve or reject
immediately, or leave a pending callback registered), and the abort
listener which may fire later.  The callback `send` registers always
returns the captured value on `ok=true` and rethrows the supplied error
on `ok=false`; the callback `recv` registers never throws. -/

/-- Result of the synchronous phase of `send`/`recv`. -/
inductive OpStart (α : Type) where
  /-- the returned promise resolved immediately with this result. -/
  | resolved (r : α)
  /-- the returned promise rejected immediately with this value. -/
  | rejected (e : Thrown)
  /-- a pending callback with this id was registered on the queue. -/
  | pending (cid : Nat)
  deriving DecidableEq, Repr

/-- The callback registered by `Chan.send` when it suspends. -/
def sendCb (cid : Nat) (value : α) : SenderCb α :=
  { id := cid, onOk := .ret value, onFail := .rethrow }

/-- The callback registered by `Chan.recv` when it suspends. -/
def recvCb (cid : Nat) : ReceiverCb α :=
  { id := cid, onVal := none, onClose := none }

/-- Synchronous phase of `send(value, abort?)`: a pre-aborted signal
rejects immediately with its reason before touching the channel; else
`trySend`, resolving on success and otherwise pushing the callback. -/
def sendStart (ch : Chan α) (value : α) (abortPre : Option Thrown) (cid : Nat) :
    Chan α × OpStart Unit :=
  match abortPre with
  | some reason => (ch, .rejected reason)
  | none =>
    match ch.trySend value with
    | (ch₁, .error e) => (ch₁, .rejected e)
    | (ch₁, .ok true) => (ch₁, .resolved ())
    | (ch₁, .ok false) =>
      ({ ch₁ with sends := ch₁.sends ++ [sendCb cid value] }, .pending cid)

/-- The abort listener installed by `send`: removes the pending callback
via `removeSender` and rejects with the abort reason. -/
def sendAbortFire (ch : Chan α) (cid : Nat) (reason : Thrown) :
    Chan α × Thrown :=
  (ch.removeSender cid, reason)

/-- Synchronous phase of `recv(abort?)`: a pre-aborted signal rejects
immediately; else `tryRecv`, resolving on a result and otherwise
registering the callback via `addReceiver`. -/
def recvStart (ch : Chan α) (abortPre : Option Thrown) (cid : Nat) :
    Chan α × OpStart (IterRes α) :=
  match abortPre with
  | some reason => (ch, .rejected reason)
  | none =>
    match ch.tryRecv with
    | (ch₁, .error e) => (ch₁, .rejected e)
    | (ch₁, .ok (some r)) => (ch₁, .resolved r)
    | (ch₁, .ok none) =>
      match ch₁.addReceiver (recvCb cid) with
      | (ch₂, .error e) => (ch₂, .rejected e)
      | (ch₂, .ok (.delivered v true)) => (ch₂, .resolved { value := v, done := none })
      | (ch₂, .ok (.delivered v false)) =>
        (ch₂, .resolved { value := v, done := some true })
      | (ch₂, .ok .enqueued) => (ch₂, .pending cid)

/-- The abort listener installed by `recv`: removes the pending callback
via `removeReceiver` and rejects with the abort reason. -/
def recvAbortFire (ch : Chan α) (cid : Nat) (reason : Thrown) :
    Chan α × Thrown :=
  (ch.removeReceiver cid, reason)

end Chan

/-! ### Lemmas about last-occurrence removal -/

theorem lastIdxOf_append_one {β : Type} (idOf : β → Nat) (cid : Nat)
    (qs : List β) (x : β) :
    lastIdxOf idOf cid (qs ++ [x])
      = if idOf x = cid then some qs.length else lastIdxOf idOf cid qs := by
  induction qs with
  | nil => simp [lastIdxOf]
  | cons y qs ih =>
    simp only [List.cons_append, lastIdxOf, List.append_eq]
    rw [ih]
    by_cases hx : idOf x = cid
    · simp [hx]
    · simp only [if_neg hx, lastIdxOf]

theorem lastIdxOf_eq_none {β : Type} (idOf : β → Nat) (cid : Nat)
    (q : List β) :
    lastIdxOf idOf cid q = none ↔ ∀ b ∈ q, idOf b ≠ cid := by
  induction q with
  | nil => simp [lastIdxOf]
  | cons y qs ih =>
    simp only [lastIdxOf, List.mem_cons]
    constructor
    · intro h
      match hq : lastIdxOf idOf cid qs with
      | some j => rw [hq] at h; exact absurd h (by simp)
      | none =>
        rw [hq] at h
        intro b hb
        rcases hb with hb | hb
        · subst hb
          intro hc
          rw [if_pos hc] at h
          exact absurd h (by simp)
        · exact (ih.mp hq) b hb
    · intro h
      have hqs : lastIdxOf idOf cid qs = none :=
        ih.mpr fun b hb => h b (Or.inr hb)
      rw [hqs, if_neg (h y (Or.inl rfl))]

theorem lastIdxOf_lt_length {β : Type} (idOf : β → Nat) (cid : Nat)
    (q : List β) (i : Nat) (h : lastIdxOf idOf cid q = some i) :
    i < q.length := by
  induction q generalizing i with
  | nil => simp [lastIdxOf] at h
  | cons y qs ih =>
    simp only [lastIdxOf] at h
    match hq : lastIdxOf idOf cid qs with
    | some j =>
      rw [hq] at h
      simp only [Option.some.injEq] at h
      have := ih j hq
      simp only [List.length_cons]
      omega
    | none =>
      rw [hq] at h
      by_cases hy : idOf y = cid
      · rw [if_pos hy] at h
        simp only [Option.some.injEq] at h
        simp [← h]
      · rw [if_neg hy] at h
        exact absurd h (by simp)

theorem eraseIdx_last {β : Type} (qs : List β) (x : β) :
    (qs ++ [x]).eraseIdx qs.length = qs := by
  rw [List.eraseIdx_append_of_length_le (Nat.le_refl _)]
  simp

theorem removeLastById_of_none {β : Type} (idOf : β → Nat) (cid : Nat)
    (q : List β) (h : lastIdxOf idOf cid q = none) :
    removeLastById idOf q cid = q := by
  have hnom := (lastIdxOf_eq_none idOf cid q).mp h
  match hql : q.getLast? with
  | none => simp [removeLastById, hql]
  | some y =>
    have hymem : y ∈ q := List.mem_of_mem_getLast? hql
    simp [removeLastById, hql, if_neg (hnom y hymem), h]

theorem removeLastById_eq_eraseIdx {β : Type} (idOf : β → Nat) (cid : Nat)
    (q : List β) (i : Nat) (h : lastIdxOf idOf cid q = some i) :
    removeLastById idOf q cid = q.eraseIdx i := by
  match hq : q.getLast? with
  | none =>
    have : q = [] := List.getLast?_eq_none_iff.mp hq
    subst this
    simp [lastIdxOf] at h
  | some y =>
    have hne : q ≠ [] := by
      intro hnil; subst hnil; simp at hq
    have hdecomp : q.dropLast ++ [q.getLast hne] = q := List.dropLast_append_getLast hne
    have hy : q.getLast hne = y := by
      have h1 := List.getLast?_eq_getLast q hne
      rw [hq] at h1
      exact (Option.some.injEq _ _).mp h1.symm
    by_cases hmatch : idOf y = cid
    · -- the last element matches: lastIdxOf is length - 1 and erase = dropLast
      have hidx : lastIdxOf idOf cid q = some q.dropLast.length := by
        conv_lhs => rw [← hdecomp]
        rw [lastIdxOf_append_one, hy, if_pos hmatch]
      rw [h] at hidx
      simp only [Option.some.injEq] at hidx
      subst hidx
      simp only [removeLastById, hq, if_pos hmatch]
      rw [← hdecomp]
      simp only [List.dropLast_concat]
      rw [eraseIdx_last]
    · simp only [removeLastById, hq, if_neg hmatch, h]

theorem removeLastById_eq_eraseLastOcc {β : Type} (idOf : β → Nat)
    (q : List β) (cid : Nat) :
    removeLastById idOf q cid = eraseLastOcc idOf q cid := by
  induction q using List.reverseRecOn with
  | nil => simp [removeLastById, eraseLastOcc]
  | append_singleton qs x ih =>
    by_cases hx : idOf x = cid
    · simp only [removeLastById, List.getLast?_concat, if_pos hx, List.dropLast_concat]
      rw [eraseLastOcc, List.reverse_append]
      simp only [List.reverse_cons, List.reverse_nil, List.nil_append,
        List.singleton_append, List.eraseP_cons]
      simp [hx]
    · have hxb : (idOf x == cid) = false := by simpa using hx
      have hrhs : eraseLastOcc idOf (qs ++ [x]) cid = eraseLastOcc idOf qs cid ++ [x] := by
        rw [eraseLastOcc, eraseLastOcc, List.reverse_append]
        simp only [List.reverse_cons, List.reverse_nil, List.nil_append,
          List.singleton_append, List.eraseP_cons]
        simp [hxb]
      rw [hrhs, ← ih]
      match hq : lastIdxOf idOf cid qs with
      | none =>
        rw [removeLastById_of_none idOf cid qs hq]
        apply removeLastById_of_none
        rw [lastIdxOf_append_one, if_neg hx, hq]
      | some i =>
        rw [removeLastById_eq_eraseIdx idOf cid qs i hq]
        have hbig : lastIdxOf idOf cid (qs ++ [x]) = some i := by
          rw [lastIdxOf_append_one, if_neg hx, hq]
        rw [removeLastById_eq_eraseIdx idOf cid (qs ++ [x]) i hbig]
        exact List.eraseIdx_append_of_lt_length
          (lastIdxOf_lt_length idOf cid qs i hq) _

/-! ## Claim theorems: buffer and channel basics -/

/-- C6: for every `CircularBuffer` constructed with positive capacity `c`
and every sequence of push/shift operations: `push` throws exactly when
the stored count equals `c` (the spec queue reports `pushFail` exactly
then, and the event traces coincide); `shift` returns the oldest stored
element and removes it, or reports absence when empty; elements come
back in the exact order pushed even across index wrap-around (the
concrete buffer abstracts to the spec FIFO queue after every sequence,
hence after every prefix — every instant); and the stored count is
always at most `c`. -/
theorem circularBuffer_push_shift_fifo {α : Type} (c : Nat) (hc : 0 < c)
    (ops : List (BufOp α)) :
    ((CircularBuffer.init α c).runOps ops).2 = (specQueueRun c [] ops).2 ∧
    ((CircularBuffer.init α c).runOps ops).1.toListOpt
      = ((specQueueRun c [] ops).1).map some ∧
    ((CircularBuffer.init α c).runOps ops).1.size
      = ((specQueueRun c [] ops).1).length ∧
    ((CircularBuffer.init α c).runOps ops).1.size ≤ c := by
  have h := CircularBuffer.runOps_sim c ops (CircularBuffer.init α c) []
    (CircularBuffer.wf_init α c hc) rfl (by simp [CircularBuffer.toListOpt_init])
  refine ⟨h.1, h.2.2.2, ?_, ?_⟩
  · exact CircularBuffer.size_eq_of_abs h.2.2.2
  · have := h.2.1.2.2.2.1
    omega

/-- Witness for C6 at capacity 3 with a wrap-around exercising sequence. -/
theorem circularBuffer_push_shift_fifo_witness :
    0 < 3 ∧
    (((CircularBuffer.init Nat 3).runOps
        [.push 1, .push 2, .shift, .push 3, .push 4, .push 5, .shift]).2
      = (specQueueRun 3 []
          [.push 1, .push 2, .shift, .push 3, .push 4, .push 5, .shift]).2 ∧
    ((CircularBuffer.init Nat 3).runOps
        [.push 1, .push 2, .shift, .push 3, .push 4, .push 5, .shift]).1.toListOpt
      = ((specQueueRun 3 []
          [.push 1, .push 2, .shift, .push 3, .push 4, .push 5, .shift]).1).map some ∧
    ((CircularBuffer.init Nat 3).runOps
        [.push 1, .push 2, .shift, .push 3, .push 4, .push 5, .shift]).1.size
      = ((specQueueRun 3 []
          [.push 1, .push 2, .shift, .push 3, .push 4, .push 5, .shift]).1).length ∧
    ((CircularBuffer.init Nat 3).runOps
        [.push 1, .push 2, .shift, .push 3, .push 4, .push 5, .shift]).1.size ≤ 3) :=
  ⟨by decide, circularBuffer_push_shift_fifo 3 (by decide)
    [.push 1, .push 2, .shift, .push 3, .push 4, .push 5, .shift]⟩

/-- C4: on a fresh open channel of capacity 3 (no waiting receivers),
`trySend(10)`, `trySend(20)`, `trySend(30)` return true, a fourth
`trySend(40)` returns false, three receives resolve with 10, 20, 30, a
subsequent `trySend(40)` returns true, and a fifth receive yields 40. -/
theorem chan_buffered_capacity3_scenario :
    ((Chan.new Nat 3 none).trySend 10).2 = .ok true ∧
    (((Chan.new Nat 3 none).trySend 10).1.trySend 20).2 = .ok true ∧
    ((((Chan.new Nat 3 none).trySend 10).1.trySend 20).1.trySend 30).2 = .ok true ∧
    (((((Chan.new Nat 3 none).trySend 10).1.trySend 20).1.trySend 30).1.trySend 40).2 = .ok false ∧
    ((((((Chan.new Nat 3 none).trySend 10).1.trySend 20).1.trySend 30).1.trySend 40).1.recvStart none 101).2 = .resolved { value := some 10, done := none } ∧
    (((((((Chan.new Nat 3 none).trySend 10).1.trySend 20).1.trySend 30).1.trySend 40).1.recvStart none 101).1.recvStart none 102).2 = .resolved { value := some 20, done := none } ∧
    ((((((((Chan.new Nat 3 none).trySend 10).1.trySend 20).1.trySend 30).1.trySend 40).1.recvStart none 101).1.recvStart none 102).1.recvStart none 103).2 = .resolved { value := some 30, done := none } ∧
    (((((((((Chan.new Nat 3 none).trySend 10).1.trySend 20).1.trySend 30).1.trySend 40).1.recvStart none 101).1.recvStart none 102).1.recvStart none 103).1.trySend 40).2 = .ok true ∧
    ((((((((((Chan.new Nat 3 none).trySend 10).1.trySend 20).1.trySend 30).1.trySend 40).1.recvStart none 101).1.recvStart none 102).1.recvStart none 103).1.trySend 40).1.recvStart none 104).2 = .resolved { value := some 40, done := none } := by
  exact ⟨rfl, rfl, rfl, rfl, rfl, rfl, rfl, rfl, rfl⟩

/-- C9: a second `close` on an already-closed channel throws
`CloseOfClosedChannelError` (before any mutation or notification). -/
theorem chan_close_of_closed_throws {α : Type} (ch : Chan α)
    (h : ch.isOpen = false) :
    ch.close = (ch, some .closeOfClosedChannel, []) := by
  simp [Chan.close, h]

/-- Witness for C9: closing a freshly-closed channel again. -/
theorem chan_close_of_closed_throws_witness :
    ({ Chan.new Nat 0 none with isOpen := false } : Chan Nat).isOpen = false ∧
    ({ Chan.new Nat 0 none with isOpen := false } : Chan Nat).close
      = ({ Chan.new Nat 0 none with isOpen := false },
          some .closeOfClosedChannel, []) :=
  ⟨rfl, chan_close_of_closed_throws _ rfl⟩

/-- C7: `removeSender(cb)` (resp. `removeReceiver(cb)`) removes exactly
the last occurrence of `cb` from the send (resp. receive) queue when
present, leaving every other entry and their relative order unchanged
(the queue becomes the last-occurrence erasure), touches nothing else,
and leaves the channel entirely unchanged when `cb` is absent. -/
theorem chan_remove_last_occurrence {α : Type} (ch : Chan α) (cid : Nat) :
    (ch.removeSender cid).sends = eraseLastOcc SenderCb.id ch.sends cid ∧
    (ch.removeSender cid).recvs = ch.recvs ∧
    (ch.removeSender cid).buffer = ch.buffer ∧
    (ch.removeSender cid).isOpen = ch.isOpen ∧
    ((∀ cb ∈ ch.sends, cb.id ≠ cid) → ch.removeSender cid = ch) ∧
    (ch.removeReceiver cid).recvs = eraseLastOcc ReceiverCb.id ch.recvs cid ∧
    (ch.removeReceiver cid).sends = ch.sends ∧
    (ch.removeReceiver cid).buffer = ch.buffer ∧
    (ch.removeReceiver cid).isOpen = ch.isOpen ∧
    ((∀ cb ∈ ch.recvs, cb.id ≠ cid) → ch.removeReceiver cid = ch) := by
  refine ⟨removeLastById_eq_eraseLastOcc _ _ _, rfl, rfl, rfl, ?_,
    removeLastById_eq_eraseLastOcc _ _ _, rfl, rfl, rfl, ?_⟩
  · intro habs
    have h := removeLastById_of_none SenderCb.id cid ch.sends
      ((lastIdxOf_eq_none _ _ _).mpr habs)
    simp [Chan.removeSender, h]
  · intro habs
    have h := removeLastById_of_none ReceiverCb.id cid ch.recvs
      ((lastIdxOf_eq_none _ _ _).mpr habs)
    simp [Chan.removeReceiver, h]

/-- Witness for C7 on a concrete channel whose send queue holds ids
`[1, 2, 1]` and receive queue holds id `[7]`, removing id 1. -/
theorem chan_remove_last_occurrence_witness :
    let ch : Chan Nat :=
      { buffer := none, defaultValue := none, isOpen := true
        sends := [⟨1, .ret 5, .rethrow⟩, ⟨2, .ret 6, .rethrow⟩, ⟨1, .ret 7, .rethrow⟩]
        recvs := [⟨7, none, none⟩] }
    (ch.removeSender 1).sends = eraseLastOcc SenderCb.id ch.sends 1 ∧
    (ch.removeSender 1).recvs = ch.recvs ∧
    (ch.removeSender 1).buffer = ch.buffer ∧
    (ch.removeSender 1).isOpen = ch.isOpen ∧
    ((∀ cb ∈ ch.sends, cb.id ≠ 1) → ch.removeSender 1 = ch) ∧
    (ch.removeReceiver 1).recvs = eraseLastOcc ReceiverCb.id ch.recvs 1 ∧
    (ch.removeReceiver 1).sends = ch.sends ∧
    (ch.removeReceiver 1).buffer = ch.buffer ∧
    (ch.removeReceiver 1).isOpen = ch.isOpen ∧
    ((∀ cb ∈ ch.recvs, cb.id ≠ 1) → ch.removeReceiver 1 = ch) :=
  chan_remove_last_occurrence _ 1

/-! ## C5: close with no waiting receivers — spec model and equivalence -/


/-- The drain phase of the claim: "while the buffer has room and senders
are queued, each queued sender callback is called with ok=true and its
return value pushed to the buffer".  Returns the resulting buffer, the
remaining senders, the exceptions thrown during this phase in order, and
the notifications performed. -/
def specCloseDrain {α : Type} : List (SenderCb α) → CircularBuffer α →
    CircularBuffer α × List (SenderCb α) × List Thrown × List Chan.CloseEvent
  | [], buf => (buf, [], [], [])
  | cb :: rest, buf =>
    if buf.full then (buf, cb :: rest, [], [])
    else
      match cb.onOk with
      | .ret v =>
        match buf.push v with
        | .ok buf₁ =>
          let (b, r, errs, evs) := specCloseDrain rest buf₁
          (b, r, errs, ⟨cb.id, true⟩ :: evs)
        | .error _ => (buf, rest, [], [⟨cb.id, true⟩])
      | .thr e =>
        let (b, r, errs, evs) := specCloseDrain rest buf
        (b, r, e :: errs, ⟨cb.id, true⟩ :: evs)

/-- The rejection phase of the claim: "the remaining queued senders are
invoked with a SendOnClosedChannel error and ok=false"; a thrown value
identity-equal to the supplied error (`FailReaction.rethrow`) is not
recorded (sentinel swallowing), any other thrown value is. -/
def specCloseReject {α : Type} : List (SenderCb α) →
    List Thrown × List Chan.CloseEvent
  | [] => ([], [])
  | cb :: rest =>
    let (errs, evs) := specCloseReject rest
    match cb.onFail with
    | .rethrow => (errs, ⟨cb.id, false⟩ :: evs)
    | .silent => (errs, ⟨cb.id, false⟩ :: evs)
    | .throwOther e => (e :: errs, ⟨cb.id, false⟩ :: evs)

/-- "the last such exception is re-thrown": the last recorded thrown
value, if any. -/
def lastThrown (errs : List Thrown) : Option JsErr :=
  match errs.getLast? with
  | some e => e
  | none => none

/-- The claim's description of `close` on an open channel with no
waiting receivers: drain senders into the buffer while it has room,
reject the remaining senders with the close error, and re-throw the
*last* captured exception (sentinel throws excluded) after all
notifications complete. -/
def closeSpecNoRecv {α : Type} (ch : Chan α) :
    Chan α × Option JsErr × List Chan.CloseEvent :=
  let (buf₁, rest, errs₁, evs₁) :=
    match ch.buffer with
    | none => (none, ch.sends, [], [])
    | some buf =>
      let (b, r, errs, evs) := specCloseDrain ch.sends buf
      (some b, r, errs, evs)
  let (errs₂, evs₂) := specCloseReject rest
  ({ ch with isOpen := false, buffer := buf₁, sends := [], recvs := [] },
    lastThrown (errs₁ ++ errs₂), evs₁ ++ evs₂)

theorem closeDrainLoop_eq_spec {α : Type} :
    ∀ (sends : List (SenderCb α)) (buf : CircularBuffer α)
      (le : Option JsErr) (evs : List Chan.CloseEvent),
    Chan.closeDrainLoop sends buf le evs =
      ((specCloseDrain sends buf).1,
       (specCloseDrain sends buf).2.1,
       (specCloseDrain sends buf).2.2.1.foldl Chan.updateLastError le,
       evs ++ (specCloseDrain sends buf).2.2.2) := by
  intro sends
  induction sends with
  | nil => intro buf le evs; simp [Chan.closeDrainLoop, specCloseDrain]
  | cons cb rest ih =>
    intro buf le evs
    by_cases hfull : buf.full
    · simp [Chan.closeDrainLoop, specCloseDrain, hfull]
    · match hok : cb.onOk with
      | .ret v =>
        match hpush : buf.push v with
        | .ok buf₁ =>
          simp only [Chan.closeDrainLoop, specCloseDrain, hfull, if_neg,
            Bool.false_eq_true, ↓reduceIte, hok, hpush, ih]
          simp
        | .error e =>
          simp [Chan.closeDrainLoop, specCloseDrain, hfull, hok, hpush]
      | .thr e =>
        simp only [Chan.closeDrainLoop, specCloseDrain, hfull,
          Bool.false_eq_true, ↓reduceIte, hok, ih]
        simp

theorem closeRejectLoop_eq_spec {α : Type} :
    ∀ (sends : List (SenderCb α)) (le : Option JsErr)
      (evs : List Chan.CloseEvent),
    Chan.closeRejectLoop sends le evs =
      ((specCloseReject sends).1.foldl Chan.updateLastError le,
       evs ++ (specCloseReject sends).2) := by
  intro sends
  induction sends with
  | nil => intro le evs; simp [Chan.closeRejectLoop, specCloseReject]
  | cons cb rest ih =>
    intro le evs
    match hf : cb.onFail with
    | .rethrow => simp [Chan.closeRejectLoop, specCloseReject, hf, ih]
    | .silent => simp [Chan.closeRejectLoop, specCloseReject, hf, ih]
    | .throwOther e => simp [Chan.closeRejectLoop, specCloseReject, hf, ih]

/-- `lastError = e ?? lastError ?? new Error('… error closing channel')`,
folded over the captured throws: the value `close` ends up throwing is
the last non-nullish thrown value; when exceptions were thrown but every
one was nullish, it is the generic fallback error; when nothing was
thrown, nothing is thrown. -/
def lastProperThrown (errs : List Thrown) : Option JsErr :=
  if errs.isEmpty then none
  else
    match (errs.filterMap id).getLast? with
    | some v => some v
    | none => some .errorClosingChannel

/-- The amended claim's description of `close` on an open channel with
no waiting receivers: drain senders into the buffer while it has room,
reject the remaining senders with the close error (sentinel throws
swallowed), and — per the code's `e ?? lastError ?? new Error(…)`
capture — throw the last *non-nullish* exception after all
notifications complete (the fallback error when only nullish values
were thrown). -/
def closeSpecNoRecvA {α : Type} (ch : Chan α) :
    Chan α × Option JsErr × List Chan.CloseEvent :=
  let (buf₁, rest, errs₁, evs₁) :=
    match ch.buffer with
    | none => (none, ch.sends, [], [])
    | some buf =>
      let (b, r, errs, evs) := specCloseDrain ch.sends buf
      (some b, r, errs, evs)
  let (errs₂, evs₂) := specCloseReject rest
  ({ ch with isOpen := false, buffer := buf₁, sends := [], recvs := [] },
    lastProperThrown (errs₁ ++ errs₂), evs₁ ++ evs₂)

theorem updateLastError_none_idem (le : Option JsErr) :
    Chan.updateLastError (Chan.updateLastError le none) none
      = Chan.updateLastError le none := by
  match le with
  | none => rfl
  | some l => rfl

theorem foldl_updateLastError_char :
    ∀ (errs : List Thrown) (le : Option JsErr),
    errs.foldl Chan.updateLastError le =
      match (errs.filterMap id).getLast? with
      | some v => some v
      | none => if errs.isEmpty then le else Chan.updateLastError le none := by
  intro errs
  induction errs with
  | nil => intro le; rfl
  | cons e rest ih =>
    intro le
    match e with
    | some v =>
      simp only [List.foldl_cons]
      rw [ih]
      show (match (rest.filterMap id).getLast? with
          | some w => some w
          | none => if rest.isEmpty = true then Chan.updateLastError le (some v)
              else Chan.updateLastError (Chan.updateLastError le (some v)) none)
        = _
      match hfm : rest.filterMap id with
      | [] =>
        show (if rest.isEmpty = true then Chan.updateLastError le (some v)
            else Chan.updateLastError (Chan.updateLastError le (some v)) none)
          = _
        have hfmc : (some v :: rest).filterMap id = [v] := by
          simp [List.filterMap_cons, hfm]
        rw [hfmc]
        match hre : rest.isEmpty with
        | true => rfl
        | false => rfl
      | w :: l =>
        have hfmc : (some v :: rest).filterMap id = v :: w :: l := by
          simp [List.filterMap_cons, hfm]
        rw [hfmc]
        have hcc : (v :: w :: l).getLast? = (w :: l).getLast? := rfl
        rw [hcc]
        match hgl : (w :: l).getLast? with
        | some u => rfl
        | none => exact absurd (List.getLast?_eq_none_iff.mp hgl) (by simp)
    | none =>
      simp only [List.foldl_cons]
      rw [ih]
      have hfmc : (none :: rest).filterMap id = rest.filterMap id := by
        simp [List.filterMap_cons]
      rw [hfmc]
      match hfm : rest.filterMap id with
      | [] =>
        show (if rest.isEmpty = true then Chan.updateLastError le none
            else Chan.updateLastError (Chan.updateLastError le none) none)
          = _
        rw [updateLastError_none_idem]
        show _ = (if (none :: rest).isEmpty = true then le
          else Chan.updateLastError le none)
        match hre : rest.isEmpty with
        | true => rfl
        | false => rfl
      | w :: l => rfl

theorem foldl_updateLastError_none (errs : List Thrown) :
    errs.foldl Chan.updateLastError none = lastProperThrown errs := by
  rw [foldl_updateLastError_char]
  unfold lastProperThrown
  match hre : errs.isEmpty with
  | true =>
    have : errs = [] := by
      match errs with
      | [] => rfl
      | e :: l => simp at hre
    subst this
    rfl
  | false =>
    simp only [Bool.false_eq_true, if_false]
    match hfm : (errs.filterMap id).getLast? with
    | some v => rfl
    | none => rfl

/-- C5 (counterexample): two queued senders on an open channel with no
waiting receivers and no buffer, the first throwing `custom 1` on
rejection and the second throwing a nullish value.  The last exception
thrown by a sender callback during `close` is the nullish one, but
`close` throws `custom 1`: the `e ?? lastError ?? new Error(…)` capture
replaces a nullish throw with the previously captured error instead of
re-throwing the last exception, so `close` differs from the
claim-worded model `closeSpecNoRecv`. -/
theorem chan_close_last_nullish_counterexample :
    (⟨none, none, true,
      [⟨1, .ret 0, .throwOther (some (.custom 1))⟩,
       ⟨2, .ret 0, .throwOther none⟩], []⟩ : Chan Nat).close.2.1 = some (.custom 1) ∧
    (specCloseReject ([⟨1, .ret 0, .throwOther (some (.custom 1))⟩,
        ⟨2, .ret 0, .throwOther none⟩] : List (SenderCb Nat))).1
      = [some (.custom 1), none] ∧
    (closeSpecNoRecv (⟨none, none, true,
      [⟨1, .ret 0, .throwOther (some (.custom 1))⟩,
       ⟨2, .ret 0, .throwOther none⟩], []⟩ : Chan Nat)).2.1 = none ∧
    (⟨none, none, true,
      [⟨1, .ret 0, .throwOther (some (.custom 1))⟩,
       ⟨2, .ret 0, .throwOther none⟩], []⟩ : Chan Nat).close
      ≠ closeSpecNoRecv (⟨none, none, true,
      [⟨1, .ret 0, .throwOther (some (.custom 1))⟩,
       ⟨2, .ret 0, .throwOther none⟩], []⟩ : Chan Nat) := by
  refine ⟨rfl, rfl, rfl, by decide⟩

/-- C5 (amended): on a `close` of an open channel with no waiting
receivers, while the buffer has room and senders are queued each queued
sender callback is called with `ok=true` and its return pushed to the
buffer; the remaining queued senders are then invoked with the
`SendOnClosedChannel` error and `ok=false`; exceptions thrown by sender
callbacks are captured via `lastError = e ?? lastError ?? new Error(…)`
— so after all notifications complete the last *non-nullish* exception
is thrown (the generic fallback error when only nullish values were
thrown), a thrown value identity-equal to the supplied error being
swallowed.  Stated as equality with `closeSpecNoRecvA`, for every
channel, with no restriction on what the callbacks throw. -/
theorem chan_close_no_receivers_amended {α : Type} (ch : Chan α)
    (hopen : ch.isOpen = true) (hrecvs : ch.recvs = []) :
    ch.close = closeSpecNoRecvA ch := by
  obtain ⟨buf?, dv, op, sends, recvs⟩ := ch
  dsimp only at hopen hrecvs
  subst hopen
  subst hrecvs
  match buf? with
  | none =>
    simp only [Chan.close, closeSpecNoRecvA, Bool.not_true, Bool.false_eq_true,
      ↓reduceIte]
    match sends with
    | [] => simp [specCloseReject, lastProperThrown]
    | cb :: rest =>
      simp only []
      rw [closeRejectLoop_eq_spec]
      rw [foldl_updateLastError_none]
      simp
  | some buf =>
    simp only [Chan.close, closeSpecNoRecvA, Bool.not_true, Bool.false_eq_true,
      ↓reduceIte]
    rw [closeDrainLoop_eq_spec]
    match hrest : (specCloseDrain sends buf).2.1 with
    | [] =>
      simp only []
      rw [foldl_updateLastError_none]
      simp [specCloseReject, lastProperThrown]
    | cb :: rest =>
      simp only []
      rw [closeRejectLoop_eq_spec]
      rw [← List.foldl_append, foldl_updateLastError_none]
      simp

/-- Witness for C5 (amended): capacity-1 buffer, four queued senders —
one value, one throwing `custom 1` on drain, one throwing `custom 2` on
rejection, and one throwing a nullish value last. -/
theorem chan_close_no_receivers_amended_witness :
    (⟨some (CircularBuffer.init Nat 1), none, true,
      [⟨1, .ret 5, .rethrow⟩,
       ⟨2, .thr (some (.custom 1)), .throwOther (some (.custom 2))⟩,
       ⟨3, .ret 6, .throwOther none⟩], []⟩ : Chan Nat).isOpen = true ∧
    (⟨some (CircularBuffer.init Nat 1), none, true,
      [⟨1, .ret 5, .rethrow⟩,
       ⟨2, .thr (some (.custom 1)), .throwOther (some (.custom 2))⟩,
       ⟨3, .ret 6, .throwOther none⟩], []⟩ : Chan Nat).recvs = [] ∧
    (⟨some (CircularBuffer.init Nat 1), none, true,
      [⟨1, .ret 5, .rethrow⟩,
       ⟨2, .thr (some (.custom 1)), .throwOther (some (.custom 2))⟩,
       ⟨3, .ret 6, .throwOther none⟩], []⟩ : Chan Nat).close
      = closeSpecNoRecvA (⟨some (CircularBuffer.init Nat 1), none, true,
      [⟨1, .ret 5, .rethrow⟩,
       ⟨2, .thr (some (.custom 1)), .throwOther (some (.custom 2))⟩,
       ⟨3, .ret 6, .throwOther none⟩], []⟩ : Chan Nat) :=
  ⟨rfl, rfl, chan_close_no_receivers_amended _ rfl rfl⟩

/-! ## C8: cancellation of send / recv -/

/-- Spec invariant 1 for the send side, as a boolean: a non-empty send
queue entails no waiting receivers and a full (or absent) buffer. -/
def Chan.sendQueueInvB {α : Type} (ch : Chan α) : Bool :=
  ch.sends.isEmpty ||
    (ch.recvs.isEmpty && ch.buffer.all fun buf => buf.full)

theorem fillLoop_size_mono {α : Type} :
    ∀ (sends : List (SenderCb α)) (buf : CircularBuffer α),
    buf.size ≤ (Chan.fillLoop sends buf).1.size := by
  intro sends
  induction sends with
  | nil => intro buf; simp [Chan.fillLoop]
  | cons cb rest ih =>
    intro buf
    by_cases hfull : buf.full
    · simp [Chan.fillLoop, hfull]
    · match hok : cb.onOk with
      | .thr e => simp [Chan.fillLoop, hfull, hok]
      | .ret v =>
        match hpush : buf.push v with
        | .error e => simp [Chan.fillLoop, hfull, hok, hpush]
        | .ok buf₁ =>
          simp only [Chan.fillLoop, hfull, Bool.false_eq_true, ↓reduceIte,
            hok, hpush]
          have h1 : buf.size ≤ buf₁.size := by
            simp only [CircularBuffer.push] at hpush
            by_cases hge : buf.size ≥ buf.capacity
            · simp [hge] at hpush
            · simp only [hge, ↓reduceIte, Except.ok.injEq] at hpush
              cases hpush
              simp
          exact le_trans h1 (ih buf₁)

theorem fillLoop_progress {α : Type} :
    ∀ (s : SenderCb α) (ss : List (SenderCb α)) (buf : CircularBuffer α),
    (Chan.fillLoop (s :: ss) buf).2.2 = none →
    (Chan.fillLoop (s :: ss) buf).2.1 ≠ [] ∨
      0 < (Chan.fillLoop (s :: ss) buf).1.size := by
  intro s ss buf hnone
  by_cases hfull : buf.full
  · left
    simp [Chan.fillLoop, hfull]
  · match hok : s.onOk with
    | .thr e =>
      simp [Chan.fillLoop, hfull, hok] at hnone
    | .ret v =>
      match hpush : buf.push v with
      | .error e => simp [Chan.fillLoop, hfull, hok, hpush] at hnone
      | .ok buf₁ =>
        right
        simp only [Chan.fillLoop, hfull, Bool.false_eq_true, ↓reduceIte,
          hok, hpush]
        have h1 : 0 < buf₁.size := by
          simp only [CircularBuffer.push] at hpush
          by_cases hge : buf.size ≥ buf.capacity
          · simp [hge] at hpush
          · simp only [hge, ↓reduceIte, Except.ok.injEq] at hpush
            cases hpush
            simp
        calc 0 < buf₁.size := h1
          _ ≤ _ := fillLoop_size_mono ss buf₁

theorem removeLastById_append_self {β : Type} (idOf : β → Nat)
    (q : List β) (cb : β) :
    removeLastById idOf (q ++ [cb]) (idOf cb) = q := by
  simp [removeLastById, List.getLast?_concat, List.dropLast_concat]

theorem removeSender_append_sendCb {α : Type} (sends : List (SenderCb α))
    (cid : Nat) (v : α) :
    removeLastById SenderCb.id (sends ++ [Chan.sendCb cid v]) cid = sends :=
  removeLastById_append_self SenderCb.id sends (Chan.sendCb cid v)

theorem removeReceiver_append_recvCb {α : Type} (recvs : List (ReceiverCb α))
    (cid : Nat) :
    removeLastById ReceiverCb.id (recvs ++ [(Chan.recvCb cid : ReceiverCb α)]) cid
      = recvs :=
  removeLastById_append_self ReceiverCb.id recvs (Chan.recvCb cid)

theorem removeSender_singleton_sendCb {α : Type} (cid : Nat) (v : α) :
    removeLastById SenderCb.id [Chan.sendCb cid v] cid = [] :=
  removeSender_append_sendCb [] cid v

theorem removeSender_cons_append_sendCb {α : Type} (x : SenderCb α)
    (xs : List (SenderCb α)) (cid : Nat) (v : α) :
    removeLastById SenderCb.id (x :: (xs ++ [Chan.sendCb cid v])) cid
      = x :: xs :=
  removeSender_append_sendCb (x :: xs) cid v

theorem removeReceiver_singleton_recvCb {α : Type} (cid : Nat) :
    removeLastById ReceiverCb.id [(Chan.recvCb cid : ReceiverCb α)] cid = [] :=
  removeReceiver_append_recvCb [] cid

theorem removeReceiver_cons_append_recvCb {α : Type} (x : ReceiverCb α)
    (xs : List (ReceiverCb α)) (cid : Nat) :
    removeLastById ReceiverCb.id
        (x :: (xs ++ [(Chan.recvCb cid : ReceiverCb α)])) cid
      = x :: xs :=
  removeReceiver_append_recvCb (x :: xs) cid

/-- C8: a pre-cancelled abort handle makes `send`/`recv` reject
immediately with the cancellation reason, with no channel mutation; if
the abort fires while the operation is pending, the registered callback
is removed from the queue — restoring the whole channel state, hence
its `concurrency` — and the promise rejects with the reason.  (The send
part assumes spec invariant 1: queued senders imply no waiting
receivers and a full-or-absent buffer.) -/
theorem chan_cancellation {α : Type} (ch : Chan α) (v : α) (cid : Nat)
    (reason : Thrown) (hInv : ch.sendQueueInvB = true) :
    ch.sendStart v (some reason) cid = (ch, .rejected reason) ∧
    ch.recvStart (some reason) cid = (ch, .rejected reason) ∧
    ((ch.sendStart v none cid).2 = .pending cid →
      Chan.sendAbortFire (ch.sendStart v none cid).1 cid reason = (ch, reason) ∧
      (Chan.sendAbortFire (ch.sendStart v none cid).1 cid reason).1.concurrency
        = ch.concurrency) ∧
    ((ch.recvStart none cid).2 = .pending cid →
      Chan.recvAbortFire (ch.recvStart none cid).1 cid reason = (ch, reason) ∧
      (Chan.recvAbortFire (ch.recvStart none cid).1 cid reason).1.concurrency
        = ch.concurrency) := by
  refine ⟨rfl, rfl, ?_, ?_⟩
  · intro hpend
    suffices hA : Chan.sendAbortFire (ch.sendStart v none cid).1 cid reason
        = (ch, reason) by
      exact ⟨hA, by rw [hA]⟩
    obtain ⟨buf?, dv, op, sends, recvs⟩ := ch
    match op with
    | false => simp [Chan.sendStart, Chan.trySend] at hpend
    | true =>
      match recvs with
      | r :: rest =>
        match hv : r.onVal with
        | some e => simp [Chan.sendStart, Chan.trySend, hv] at hpend
        | none => simp [Chan.sendStart, Chan.trySend, hv] at hpend
      | [] =>
        match buf? with
        | none =>
          simp [Chan.sendStart, Chan.trySend, Chan.fillBuffer,
            Chan.sendAbortFire, Chan.removeSender,
            removeSender_append_sendCb]
        | some buf =>
          match sends with
          | [] =>
            by_cases hfull : buf.full
            · simp [Chan.sendStart, Chan.trySend, Chan.fillBuffer,
                Chan.fillLoop, hfull, Chan.sendAbortFire, Chan.removeSender,
                removeSender_append_sendCb, removeSender_singleton_sendCb]
            · match hpush : buf.push v with
              | .ok buf₂ =>
                simp [Chan.sendStart, Chan.trySend, Chan.fillBuffer,
                  Chan.fillLoop, hfull, hpush] at hpend
              | .error e =>
                simp [Chan.sendStart, Chan.trySend, Chan.fillBuffer,
                  Chan.fillLoop, hfull, hpush] at hpend
          | s :: ss =>
            have hfull : buf.full = true := by
              simp [Chan.sendQueueInvB] at hInv
              exact hInv
            simp [Chan.sendStart, Chan.trySend, Chan.fillBuffer,
              Chan.fillLoop, hfull, Chan.sendAbortFire, Chan.removeSender,
              removeSender_append_sendCb, removeSender_cons_append_sendCb]
  · intro hpend
    suffices hA : Chan.recvAbortFire (ch.recvStart none cid).1 cid reason
        = (ch, reason) by
      exact ⟨hA, by rw [hA]⟩
    obtain ⟨buf?, dv, op, sends, recvs⟩ := ch
    match sends with
    | [] =>
      match buf? with
      | none =>
        match op with
        | false =>
          simp [Chan.recvStart, Chan.tryRecv, Chan.tryRecvRest,
            Chan.fillBuffer] at hpend
        | true =>
          simp [Chan.recvStart, Chan.tryRecv, Chan.tryRecvRest,
            Chan.fillBuffer, Chan.addReceiver, Chan.addReceiverRest,
            Chan.recvAbortFire, Chan.removeReceiver,
            removeReceiver_append_recvCb, removeReceiver_singleton_recvCb,
            removeReceiver_cons_append_recvCb]
      | some buf =>
        by_cases hemp : buf.empty
        · match op with
          | false =>
            simp [Chan.recvStart, Chan.tryRecv, Chan.tryRecvRest,
              Chan.fillBuffer, Chan.fillLoop, hemp] at hpend
          | true =>
            simp [Chan.recvStart, Chan.tryRecv, Chan.tryRecvRest,
              Chan.fillBuffer, Chan.fillLoop, hemp, Chan.addReceiver,
              Chan.addReceiverRest, Chan.recvAbortFire, Chan.removeReceiver,
              removeReceiver_append_recvCb, removeReceiver_singleton_recvCb,
              removeReceiver_cons_append_recvCb]
        · simp [Chan.recvStart, Chan.tryRecv, Chan.fillBuffer,
            Chan.fillLoop, hemp] at hpend
    | s :: ss =>
      match buf? with
      | none =>
        match hok : s.onOk with
        | .ret w =>
          simp [Chan.recvStart, Chan.tryRecv, Chan.tryRecvRest,
            Chan.fillBuffer, hok] at hpend
        | .thr e =>
          simp [Chan.recvStart, Chan.tryRecv, Chan.tryRecvRest,
            Chan.fillBuffer, hok] at hpend
      | some buf =>
        match hfl : Chan.fillLoop (s :: ss) buf with
        | (buf₂, sends₂, some e) =>
          simp [Chan.recvStart, Chan.tryRecv, Chan.fillBuffer, hfl] at hpend
        | (buf₂, sends₂, none) =>
          rcases fillLoop_progress s ss buf (by rw [hfl]) with hne | hpos
          · rw [hfl] at hne
            simp only at hne
            by_cases hemp : buf₂.empty
            · match sends₂, hne with
              | s₂ :: ss₂, _ =>
                match hok : s₂.onOk with
                | .ret w =>
                  simp [Chan.recvStart, Chan.tryRecv, Chan.tryRecvRest,
                    Chan.fillBuffer, hfl, hemp, hok] at hpend
                | .thr e =>
                  simp [Chan.recvStart, Chan.tryRecv, Chan.tryRecvRest,
                    Chan.fillBuffer, hfl, hemp, hok] at hpend
            · simp only [Bool.not_eq_true] at hemp
              match hsh : buf₂.shift with
              | (r, buf₂x) =>
                match hfl2 : Chan.fillLoop sends₂ buf₂x with
                | (buf₃, sends₃, some e) =>
                  simp [Chan.recvStart, Chan.tryRecv, Chan.fillBuffer,
                    hfl, hemp, hsh, hfl2] at hpend
                | (buf₃, sends₃, none) =>
                  simp [Chan.recvStart, Chan.tryRecv, Chan.fillBuffer,
                    hfl, hemp, hsh, hfl2] at hpend
          · rw [hfl] at hpos
            simp only at hpos
            have hemp : buf₂.empty = false := by
              simp [CircularBuffer.empty]
              omega
            match hsh : buf₂.shift with
            | (r, buf₂x) =>
              match hfl2 : Chan.fillLoop sends₂ buf₂x with
              | (buf₃, sends₃, some e) =>
                simp [Chan.recvStart, Chan.tryRecv, Chan.fillBuffer,
                  hfl, hemp, hsh, hfl2] at hpend
              | (buf₃, sends₃, none) =>
                simp [Chan.recvStart, Chan.tryRecv, Chan.fillBuffer,
                  hfl, hemp, hsh, hfl2] at hpend

/-- Witness for C8: fresh unbuffered channel, abort reason `abortReason 1`. -/
theorem chan_cancellation_witness :
    (Chan.new Nat 0 none).sendQueueInvB = true ∧
    ((Chan.new Nat 0 none).sendStart 7 (some (some (.abortReason 1))) 9
        = (Chan.new Nat 0 none, .rejected (some (.abortReason 1))) ∧
      (Chan.new Nat 0 none).recvStart (some (some (.abortReason 1))) 9
        = (Chan.new Nat 0 none, .rejected (some (.abortReason 1))) ∧
      (((Chan.new Nat 0 none).sendStart 7 none 9).2 = .pending 9 →
        Chan.sendAbortFire ((Chan.new Nat 0 none).sendStart 7 none 9).1 9
            (some (.abortReason 1))
          = (Chan.new Nat 0 none, some (.abortReason 1)) ∧
        (Chan.sendAbortFire ((Chan.new Nat 0 none).sendStart 7 none 9).1 9
            (some (.abortReason 1))).1.concurrency
          = (Chan.new Nat 0 none).concurrency) ∧
      (((Chan.new Nat 0 none).recvStart none 9).2 = .pending 9 →
        Chan.recvAbortFire ((Chan.new Nat 0 none).recvStart none 9).1 9
            (some (.abortReason 1))
          = (Chan.new Nat 0 none, some (.abortReason 1)) ∧
        (Chan.recvAbortFire ((Chan.new Nat 0 none).recvStart none 9).1 9
            (some (.abortReason 1))).1.concurrency
          = (Chan.new Nat 0 none).concurrency)) :=
  ⟨rfl, chan_cancellation (Chan.new Nat 0 none) 7 9 (some (.abortReason 1)) rfl⟩

/-! ## Select (select.ts, case.ts)

The select's case states are mutable records shared between the `cases`
array (indexed by `caseIndex`) and the `pending` array.  The model keeps
the states in `cases` (position = `cidx`, an invariant of the code) and
lets `pending` hold `cidx` values, mirroring the reference aliasing.
Channels live in a world-level list; select cases reference them by
index.  The `Math.random`-driven draws are modelled by a list of natural
numbers, the draw for loop index `i` being taken modulo `i + 1`
(`Math.floor(random() * (i + 1))` ranges over exactly `0 … i`). -/

/-- Discriminator of a select case (case.ts): a sender case (with the
value its `expr` produces), a receiver case, or a promise case. -/
inductive CaseKind (α : Type) where
  | sendCase (ch : Nat) (expr : α)
  | recvCase (ch : Nat)
  | promCase
  deriving DecidableEq, Repr

/-- The per-case state (`SelectCase[selectState]`, case.ts): `cidx`,
`pidx`, terminal markers `ok`/`next`, and the currently registered
channel-side callbacks `cscb`/`crcb` (by id). -/
structure CaseSt (α : Type) where
  kind : CaseKind α
  cidx : Nat
  pidx : Option Nat
  ok : Option Bool
  next : Option α
  cscb : Option Nat
  crcb : Option Nat
  deriving DecidableEq, Repr

instance {α : Type} : Inhabited (CaseSt α) :=
  ⟨{ kind := .promCase, cidx := 0, pidx := none, ok := none, next := none
     cscb := none, crcb := none }⟩

/-- The state of a `Select` (select.ts): `#cases` (in input order),
`#pending` (as `cidx` references), `#reshuffle`, `#next`, `#waiting`. -/
structure SelSt (α : Type) where
  cases : List (CaseSt α)
  pending : List Nat
  reshuffle : Bool
  next : Option Nat
  waiting : Bool
  deriving DecidableEq, Repr

/-- A select together with the channels its cases refer to. -/
structure World (α : Type) where
  sel : SelSt α
  chans : List (Chan α)
  deriving DecidableEq, Repr

/-- In-place update of a list element (JS array element assignment). -/
def updateAt {β : Type} : List β → Nat → (β → β) → List β
  | [], _, _ => []
  | x :: xs, 0, f => f x :: xs
  | x :: xs, i + 1, f => x :: updateAt xs i f

namespace Select

variable {α : Type}

def getCase (sel : SelSt α) (i : Nat) : CaseSt α := sel.cases.getD i default

def getChan (w : World α) (i : Nat) : Chan α := w.chans.getD i (Chan.new α 0 none)

def setChan (w : World α) (i : Nat) (ch : Chan α) : World α :=
  { w with chans := w.chans.set i ch }

def markCase (w : World α) (i : Nat) (f : CaseSt α → CaseSt α) : World α :=
  { w with sel := { w.sel with cases := updateAt w.sel.cases i f } }

/-- `values[x].pidx = p` for the case with caseIndex `ci`. -/
def stampPidx (cases : List (CaseSt α)) (ci : Nat) (p : Nat) : List (CaseSt α) :=
  updateAt cases ci fun c => { c with pidx := some p }

/-- `values[i] = values[j]; values[i].pidx = i; values[j] = t;
values[j].pidx = j` — one swap of the Fisher-Yates loop. -/
def swapIdx (l : List Nat) (a b : Nat) : List Nat :=
  (l.set a (l.getD b 0)).set b (l.getD a 0)

/-- The loop of `fisherYatesShuffle` (select.ts): `fyLoop i` performs
the iterations for loop indices `i, i-1, …, 1`, consuming one random
draw per iteration. -/
def fyLoop : Nat → List Nat → List Nat → List (CaseSt α) →
    List Nat × List (CaseSt α)
  | 0, _, pending, cases => (pending, cases)
  | i + 1, rnds, pending, cases =>
    let j := rnds.headD 0 % (i + 2)
    let a := pending.getD (i + 1) 0
    let b := pending.getD j 0
    let pending₁ := swapIdx pending (i + 1) j
    let cases₁ := stampPidx cases b (i + 1)
    let cases₂ := stampPidx cases₁ a j
    fyLoop i rnds.tail pending₁ cases₂

/-- `fisherYatesShuffle(values)` (select.ts): the downward loop followed
by `values[0].pidx = 0` when non-empty. -/
def fisherYatesShuffle (pending : List Nat) (cases : List (CaseSt α))
    (rnds : List Nat) : List Nat × List (CaseSt α) :=
  let (p, c) := fyLoop (pending.length - 1) rnds pending cases
  match p with
  | [] => (p, c)
  | x :: _ => (p, stampPidx c x 0)

/-- `mapPendingValues`: each case is assigned its `caseIndex` in source
order (`pidx` is set on shuffle). -/
def mkCases (kinds : List (CaseKind α)) : List (CaseSt α) :=
  (List.range kinds.length).map fun i =>
    { kind := kinds.getD i .promCase, cidx := i, pidx := none, ok := none
      next := none, cscb := none, crcb := none }

/-- The `Select` constructor: assign case indices, shuffle the full case
list into the initial pending set, clear the flags. -/
def mkSelect (kinds : List (CaseKind α)) (chans : List (Chan α))
    (rnds : List Nat) : World α :=
  let cases := mkCases kinds
  let (pending, cases₁) :=
    fisherYatesShuffle (List.range cases.length) cases rnds
  { sel :=
      { cases := cases₁, pending := pending, reshuffle := false
        next := none, waiting := false }
    chans := chans }

end Select

namespace Select

variable {α : Type}

/-- Result of probing one channel case during `poll`. -/
inductive ProbeRes where
  | ready
  | notReady
  deriving DecidableEq, Repr

/-- Probe a sender case (select.ts poll): `addSender` with a locked
callback; inline delivery marks the case `ok` and is "ready"; an
enqueued callback is immediately withdrawn via `removeSender` (modelled
as the no-op it nets to), leaving only the `#fillBuffer` side effects. -/
def probeSend (w : World α) (cidx chIdx : Nat) (expr : α) :
    World α × Except Thrown ProbeRes :=
  let ch := getChan w chIdx
  if !ch.isOpen then (w, .error (some .sendOnClosedChannel))
  else
    match ch.recvs with
    | r :: rest =>
      -- receiver waiting: the locked callback fires inline (sets ok),
      -- then the receiver callback gets the value (and may throw)
      let w₁ := setChan w chIdx { ch with recvs := rest }
      let w₂ := markCase w₁ cidx fun c => { c with ok := some true }
      match r.onVal with
      | some e => (w₂, .error e)
      | none => (w₂, .ok .ready)
    | [] =>
      let (ch₁, e) := ch.fillBuffer
      let w₁ := setChan w chIdx ch₁
      match e with
      | some e => (w₁, .error e)
      | none =>
        match ch₁.buffer with
        | some buf =>
          if buf.full then (w₁, .ok .notReady)
          else
            let w₂ := markCase w₁ cidx fun c => { c with ok := some true }
            match buf.push expr with
            | .ok buf₂ => (setChan w₂ chIdx { ch₁ with buffer := some buf₂ }, .ok .ready)
            | .error e => (w₂, .error e)
        | none => (w₁, .ok .notReady)

/-- The sender / closed / enqueue tail of `addReceiver` for a probe. -/
def probeRecvRest (w : World α) (cidx chIdx : Nat) :
    World α × Except Thrown ProbeRes :=
  let ch := getChan w chIdx
  match ch.sends with
  | scb :: rest =>
    let w₁ := setChan w chIdx { ch with sends := rest }
    match scb.onOk with
    | .thr e => (w₁, .error e)
    | .ret v =>
      (markCase w₁ cidx fun c => { c with next := some v, ok := some true },
        .ok .ready)
  | [] =>
    if !ch.isOpen then
      (markCase w cidx fun c => { c with next := ch.defaultValue, ok := some false },
        .ok .ready)
    else (w, .ok .notReady)

/-- Probe a receiver case (select.ts poll): `addReceiver` with a locked
callback; inline delivery records `next`/`ok` on the case. -/
def probeRecv (w : World α) (cidx chIdx : Nat) :
    World α × Except Thrown ProbeRes :=
  let ch := getChan w chIdx
  let (ch₁, e) := ch.fillBuffer
  let w₁ := setChan w chIdx ch₁
  match e with
  | some e => (w₁, .error e)
  | none =>
    match ch₁.buffer with
    | some buf =>
      if buf.empty then probeRecvRest w₁ cidx chIdx
      else
        let (r, buf₂) := buf.shift
        let w₂ := setChan w₁ chIdx { ch₁ with buffer := some buf₂ }
        let w₃ := markCase w₂ cidx fun c => { c with next := r, ok := some true }
        -- second `#fillBuffer` after the inline delivery
        let ch₂ := getChan w₃ chIdx
        let (ch₃, e₂) := ch₂.fillBuffer
        let w₄ := setChan w₃ chIdx ch₃
        match e₂ with
        | some e₂ => (w₄, .error e₂)
        | none => (w₄, .ok .ready)
    | none => probeRecvRest w₁ cidx chIdx

end Select

namespace Select

variable {α : Type}

/-- "consume the last poll/wait, if it hasn't been consumed already". -/
def consumeNext (sel : SelSt α) : SelSt α :=
  match sel.next with
  | none => sel
  | some i =>
    { sel with
      cases := updateAt sel.cases i fun c => { c with ok := none, next := none }
      next := none }

/-- The linear scan of `poll` over the pending cases, in order. -/
def pollScan : World α → List Nat → World α × Except Thrown (Option Nat)
  | w, [] =>
    ({ w with sel := { w.sel with reshuffle := false } }, .ok none)
  | w, ci :: rest =>
    let c := getCase w.sel ci
    if c.ok.isSome then
      -- a case already terminal is up next; promise cases clear the
      -- reshuffle flag (they are removed on recv)
      let w₁ :=
        match c.kind with
        | .promCase => { w with sel := { w.sel with reshuffle := false } }
        | _ => w
      ({ w₁ with sel := { w₁.sel with next := some c.cidx } }, .ok (some c.cidx))
    else
      match c.kind with
      | .sendCase chIdx expr =>
        if c.cscb.isSome then (w, .error (some .internalError))
        else
          match probeSend w ci chIdx expr with
          | (w₁, .error e) => (w₁, .error e)
          | (w₁, .ok .ready) =>
            ({ w₁ with sel := { w₁.sel with next := some ci } }, .ok (some ci))
          | (w₁, .ok .notReady) => pollScan w₁ rest
      | .recvCase chIdx =>
        if c.crcb.isSome then (w, .error (some .internalError))
        else
          match probeRecv w ci chIdx with
          | (w₁, .error e) => (w₁, .error e)
          | (w₁, .ok .ready) =>
            ({ w₁ with sel := { w₁.sel with next := some ci } }, .ok (some ci))
          | (w₁, .ok .notReady) => pollScan w₁ rest
      | .promCase => pollScan w rest

/-- Result of `poll`, with the shuffle made observable. -/
structure PollRes (α : Type) where
  world : World α
  res : Except Thrown (Option Nat)
  didShuffle : Bool
  deriving DecidableEq, Repr

/-- `Select.poll` (select.ts): reject reentrant use, consume the cached
`#next`, re-shuffle the pending set exactly when the `#reshuffle` flag
is set (else set it), then scan. -/
def poll (w : World α) (rnds : List Nat) : PollRes α :=
  if w.sel.waiting then
    { world := w, res := .error (some .casesInUse), didShuffle := false }
  else
    let sel₁ := consumeNext w.sel
    if sel₁.reshuffle then
      let (p, cs) := fisherYatesShuffle sel₁.pending sel₁.cases rnds
      let sel₂ := { sel₁ with pending := p, cases := cs }
      let (w₁, res) := pollScan { w with sel := sel₂ } sel₂.pending
      { world := w₁, res := res, didShuffle := true }
    else
      let sel₂ := { sel₁ with reshuffle := true }
      let (w₁, res) := pollScan { w with sel := sel₂ } sel₂.pending
      { world := w₁, res := res, didShuffle := false }

/-- Thrown values of `Select.recv`: library errors, or the stored
rejection reason of a rejected promise case (re-thrown to the caller). -/
inductive RecvSelThrow (α : Type) where
  | lib (e : Thrown)
  | reason (v : Option α)
  deriving DecidableEq, Repr

/-- Re-stamp `pending[idx].pidx = idx` for each entry of the given tail
of the pending array, starting at position `idx`. -/
def restampAll : List Nat → Nat → List (CaseSt α) → List (CaseSt α)
  | [], _, cases => cases
  | ci :: rest, idx, cases => restampAll rest (idx + 1) (stampPidx cases ci idx)

/-- Clearing performed when a result is consumed: `#next`, `ok`, `next`. -/
def clearConsume (w : World α) (i : Nat) : World α :=
  { w with sel :=
      { w.sel with
        next := none
        cases := updateAt w.sel.cases i fun c => { c with ok := none, next := none } } }

/-- `Select.recv` (select.ts). -/
def recvSel (w : World α) (i : Nat) : World α × Except (RecvSelThrow α) (IterRes α) :=
  if w.sel.waiting then (w, .error (.lib (some .casesInUse)))
  else if i < w.sel.cases.length then
    let c := getCase w.sel i
    if (w.sel.next == some i) &&
        ((c.pidx.bind fun p => w.sel.pending.get? p) == some i) then
      match c.kind with
      | .recvCase _ =>
        match c.ok with
        | some true => (clearConsume w i, .ok { value := c.next, done := none })
        | some false =>
          (clearConsume w i, .ok { value := c.next, done := some true })
        | none => (w, .error (.lib (some .caseNotReady)))
      | .promCase =>
        match c.ok with
        | some b =>
          -- "only receives once per promise": splice out of pending,
          -- re-stamp the successors, clear the case's pidx
          let p := c.pidx.getD 0
          let pending₁ := w.sel.pending.eraseIdx p
          let cases₁ := restampAll (pending₁.drop p) p w.sel.cases
          let cases₂ := updateAt cases₁ i fun cc => { cc with pidx := none }
          let w₁ := { w with sel :=
            { w.sel with pending := pending₁, cases := cases₂ } }
          let w₂ := clearConsume w₁ i
          if b then (w₂, .ok { value := c.next, done := some false })
          else (w₂, .error (.reason c.next))
        | none => (w, .error (.lib (some .caseNotReady)))
      | .sendCase _ _ => (w, .error (.lib (some .caseNotReceivable)))
    else (w, .error (.lib (some .caseNotReady)))
  else (w, .error (.lib (some .caseNotFound)))

end Select

namespace Select

variable {α : Type}

/-- `Number.MAX_SAFE_INTEGER`. -/
def maxSafeInteger : Int := 2 ^ 53 - 1

/-- `Number.MIN_SAFE_INTEGER`. -/
def minSafeInteger : Int := -(2 ^ 53 - 1)

/-- One macrotask tick of the yield generation (yield.ts
`yieldComplete`): increments, wrapping from `MAX_SAFE_INTEGER` to
`MIN_SAFE_INTEGER`. -/
def genTick (g : Int) : Int :=
  if g = maxSafeInteger then minSafeInteger else g + 1

/-- The yield generation after `n` macrotask ticks. -/
def genAdvance : Int → Nat → Int
  | g, 0 => g
  | g, n + 1 => genAdvance (genTick g) n

/-- The `#stop` sweep (select.ts): withdraw every registered
channel-side callback of the pending cases. -/
def sweepGo : List Nat → World α → World α
  | [], w => w
  | ci :: rest, w =>
    let c := getCase w.sel ci
    let w₁ :=
      match c.kind, c.cscb with
      | .sendCase chIdx _, some cbId =>
        markCase (setChan w chIdx ((getChan w chIdx).removeSender cbId)) ci
          fun cc => { cc with cscb := none }
      | _, _ => w
    let c₁ := getCase w₁.sel ci
    let w₂ :=
      match c₁.kind, c₁.crcb with
      | .recvCase chIdx, some cbId =>
        markCase (setChan w₁ chIdx ((getChan w₁ chIdx).removeReceiver cbId)) ci
          fun cc => { cc with crcb := none }
      | _, _ => w₁
    sweepGo rest w₂

def sweep (w : World α) : World α := sweepGo w.sel.pending w

/-- One registration step of the sender / closed / enqueue tail of
`addReceiver` during `wait` (non-recursive; the scan continues with the
returned accumulator). -/
def regRecvRestStep (cbIdBase ci chIdx : Nat) (w : World α)
    (firstSettle : Option (Except Thrown Nat)) (tokenLive : Bool) :
    World α × Option (Except Thrown Nat) × Bool :=
  let ch := getChan w chIdx
  match ch.sends with
  | scb :: rest₂ =>
    let w₁ := setChan w chIdx { ch with sends := rest₂ }
    match scb.onOk with
    | .thr e =>
      -- the queued sender throws before the locked callback runs; the
      -- executor rethrows and that promise rejects
      (w₁, firstSettle.orElse fun _ => some (.error e), tokenLive)
    | .ret v =>
      let w₂ := markCase w₁ ci fun cc =>
        { cc with next := some v, ok := some true }
      let w₃ := sweep w₂
      (w₃, firstSettle.orElse fun _ => some (.ok ci), false)
  | [] =>
    if !ch.isOpen then
      -- closed channel: delivered inline with ok=false — still a win
      let w₁ := markCase w ci fun cc =>
        { cc with next := ch.defaultValue, ok := some false }
      let w₂ := sweep w₁
      (w₂, firstSettle.orElse fun _ => some (.ok ci), false)
    else
      let w₁ := setChan w chIdx
        { ch with recvs := ch.recvs ++
            [{ id := cbIdBase + ci, onVal := none, onClose := none }] }
      let w₂ := markCase w₁ ci fun cc =>
        { cc with crcb := some (cbIdBase + ci) }
      (w₂, firstSettle, tokenLive)

/-- The registration pass of `wait` (the `then` of each pending case,
invoked in pending order by `Promise.race`).  `firstSettle` records the
first synchronously settled promise (`Promise.race`'s winner);
`tokenLive` tracks whether the stop token has been consumed by an
inline win's sweep (after which later registrations are inert). -/
def regScan (cbIdBase : Nat) :
    List Nat → World α → Option (Except Thrown Nat) → Bool →
    World α × Option (Except Thrown Nat) × Bool
  | [], w, firstSettle, tokenLive => (w, firstSettle, tokenLive)
  | ci :: rest, w, firstSettle, tokenLive =>
    if !tokenLive then
      -- then() throws errThenCalledAfterStop into its own (losing)
      -- promise; no effects
      regScan cbIdBase rest w firstSettle tokenLive
    else
      let c := getCase w.sel ci
      match c.kind with
      | .promCase => regScan cbIdBase rest w firstSettle tokenLive
      | .sendCase chIdx expr =>
        let ch := getChan w chIdx
        if !ch.isOpen then
          -- addSender throws synchronously; the executor rethrows and
          -- that promise rejects
          regScan cbIdBase rest w
            (firstSettle.orElse fun _ => some (.error (some .sendOnClosedChannel)))
            tokenLive
        else
          match ch.recvs with
          | _r :: rest₂ =>
            -- inline win: the locked callback runs stop (sweep), then
            -- expr, sets ok, resolves; the receiver callback's own
            -- throw (if any) is swallowed by the already-settled promise
            let w₁ := setChan w chIdx { ch with recvs := rest₂ }
            let w₂ := sweep w₁
            let w₃ := markCase w₂ ci fun cc => { cc with ok := some true }
            regScan cbIdBase rest w₃
              (firstSettle.orElse fun _ => some (.ok ci)) false
          | [] =>
            let (ch₁, e) := ch.fillBuffer
            let w₁ := setChan w chIdx ch₁
            match e with
            | some e =>
              regScan cbIdBase rest w₁
                (firstSettle.orElse fun _ => some (.error e)) tokenLive
            | none =>
              match ch₁.buffer with
              | some buf =>
                if buf.full then
                  -- enqueued: record cscb and the queue entry
                  let w₂ := setChan w₁ chIdx
                    { ch₁ with sends := ch₁.sends ++
                        [{ id := cbIdBase + ci, onOk := .ret expr
                           onFail := .rethrow }] }
                  let w₃ := markCase w₂ ci fun cc =>
                    { cc with cscb := some (cbIdBase + ci) }
                  regScan cbIdBase rest w₃ firstSettle tokenLive
                else
                  -- inline win into the buffer
                  let w₂ := sweep w₁
                  let w₃ := markCase w₂ ci fun cc => { cc with ok := some true }
                  let ch₂ := getChan w₃ chIdx
                  let w₄ :=
                    match ch₂.buffer with
                    | some buf₂ =>
                      match buf₂.push expr with
                      | .ok buf₃ => setChan w₃ chIdx { ch₂ with buffer := some buf₃ }
                      | .error _ => w₃
                    | none => w₃
                  regScan cbIdBase rest w₄
                    (firstSettle.orElse fun _ => some (.ok ci)) false
              | none =>
                let w₂ := setChan w₁ chIdx
                  { ch₁ with sends := ch₁.sends ++
                      [{ id := cbIdBase + ci, onOk := .ret expr
                         onFail := .rethrow }] }
                let w₃ := markCase w₂ ci fun cc =>
                  { cc with cscb := some (cbIdBase + ci) }
                regScan cbIdBase rest w₃ firstSettle tokenLive
      | .recvCase chIdx =>
        let ch := getChan w chIdx
        let (ch₁, e) := ch.fillBuffer
        let w₁ := setChan w chIdx ch₁
        match e with
        | some e =>
          regScan cbIdBase rest w₁
            (firstSettle.orElse fun _ => some (.error e)) tokenLive
        | none =>
          match ch₁.buffer with
          | some buf =>
            if buf.empty then
              let (w₂, fs₂, tl₂) :=
                regRecvRestStep cbIdBase ci chIdx w₁ firstSettle tokenLive
              regScan cbIdBase rest w₂ fs₂ tl₂
            else
              -- inline win from the buffer: lrcb sets next/ok, sweeps,
              -- resolves; the second fillBuffer still runs (its error,
              -- if any, is swallowed by the settled promise)
              let rb := buf.shift
              let buf₂ := rb.2
              let w₂ := setChan w₁ chIdx { ch₁ with buffer := some buf₂ }
              let w₃ := markCase w₂ ci fun cc =>
                { cc with next := rb.1, ok := some true }
              let w₄ := sweep w₃
              let ch₂ := getChan w₄ chIdx
              let (ch₃, _) := ch₂.fillBuffer
              let w₅ := setChan w₄ chIdx ch₃
              regScan cbIdBase rest w₅
                (firstSettle.orElse fun _ => some (.ok ci)) false
          | none =>
            let (w₂, fs₂, tl₂) :=
              regRecvRestStep cbIdBase ci chIdx w₁ firstSettle tokenLive
            regScan cbIdBase rest w₂ fs₂ tl₂

end Select

namespace Select

variable {α : Type}

/-- Result of one modelled `Select.wait` call: the final world, the
outcome (`none` models a wait that suspends forever because nothing
ever becomes ready), and whether the macrotask-yield promise was
awaited before returning. -/
structure WaitRes (α : Type) where
  world : World α
  res : Option (Except Thrown Nat)
  yielded : Bool
  deriving Repr

/-- The index validation at the end of `wait` (the `invalid index`
internal check). -/
def validateIdx (w : World α) (i : Nat) : Bool :=
  decide (i < w.sel.cases.length) &&
    (match (getCase w.sel i).pidx with
     | some p => w.sel.pending.get? p == some i
     | none => false)

/-- The tail of `wait` after the race settles: either rethrow, or
validate the index, record it in `#next` and return it. -/
def finishWait (w : World α) (r : Except Thrown Nat) (yielded : Bool) :
    WaitRes α :=
  match r with
  | .error e => { world := w, res := some (.error e), yielded := yielded }
  | .ok i =>
    if validateIdx w i then
      { world := { w with sel := { w.sel with next := some i } }
        res := some (.ok i), yielded := yielded }
    else
      { world := w, res := some (.error (some .invalidIndex))
        yielded := yielded }

/-- `Select.wait` (select.ts), called without an abort signal.  `rnds`
drives the inner `poll`; `cbIdBase` supplies fresh ids for the locked
callbacks registered on channels; `settle` names the pending promise
case (with its `ok` flag and value / rejection reason) that settles
first when the wait suspends, `none` meaning nothing ever settles;
`genStart` is the yield generation at entry and `genDelta` the number
of macrotask ticks that elapse while suspended.  In every returning
path the macrotask-yield promise is awaited exactly when the yield
generation observed on return equals the one captured at entry. -/
def waitM (w : World α) (rnds : List Nat) (cbIdBase : Nat)
    (settle : Option (Nat × Bool × Option α)) (genStart : Int)
    (genDelta : Nat) : WaitRes α :=
  let yielded := genAdvance genStart genDelta == genStart
  let pr := poll w rnds
  match pr.res with
  | .error e => { world := pr.world, res := some (.error e), yielded := yielded }
  | .ok (some i) => { world := pr.world, res := some (.ok i), yielded := yielded }
  | .ok none =>
    let (w₁, fs, tl) := regScan cbIdBase pr.world.sel.pending pr.world none true
    match fs with
    | some r =>
      let w₂ := if tl then sweep w₁ else w₁
      finishWait w₂ r yielded
    | none =>
      match settle with
      | some (k, b, val) =>
        if decide (k < w₁.sel.cases.length) &&
            (match (getCase w₁.sel k).kind with
             | .promCase => true
             | _ => false) &&
            (getCase w₁.sel k).pidx.isSome then
          let w₂ := markCase w₁ k fun cc => { cc with ok := some b, next := val }
          let w₃ := if tl then sweep w₂ else w₂
          finishWait w₃ (.ok k) yielded
        else { world := w₁, res := none, yielded := false }
      | none => { world := w₁, res := none, yielded := false }

end Select

/-! ## C1: `Select.recv` on a settled promise case (code bug)

`select.ts` (recv, promise branch, `case true`) returns
`{value, done: false}` for a *resolved* promise case, while the spec and
the repository's own test expect `{value, done: true}`
(select.test.ts: `expect(promiseBooleanResult).toStrictEqual({done:
true, value: true})`).  The theorem below evaluates the embedded code at
the failing input: a select holding a single already-resolved promise
case.  The rejection branch (throws the stored reason) and the removal
from the pending set (with successor re-stamping) do behave as claimed,
which the remaining conjuncts record. -/

/-- C1 (code bug, failing input): after a promise case resolves with 42
and `wait` selects it, `recv` returns `done: false` — not `done: true`
as the claim states; a rejected promise case throws the stored reason;
in either outcome the case is spliced out of the pending set (the
successor in a two-promise select is re-stamped from `pendingIndex` 1 to
0) and its own `pendingIndex` becomes undefined. -/
theorem select_recv_promise_done_flag_bug :
    (Select.waitM (Select.mkSelect [(CaseKind.promCase : CaseKind Nat)] [] []) [] 100 (some (0, true, some 42)) 0 1).res = some (.ok 0) ∧
    (Select.recvSel (Select.waitM (Select.mkSelect [(CaseKind.promCase : CaseKind Nat)] [] []) [] 100 (some (0, true, some 42)) 0 1).world 0).2 = .ok { value := some 42, done := some false } ∧
    (Select.recvSel (Select.waitM (Select.mkSelect [(CaseKind.promCase : CaseKind Nat)] [] []) [] 100 (some (0, true, some 42)) 0 1).world 0).2 ≠ .ok { value := some 42, done := some true } ∧
    (Select.recvSel (Select.waitM (Select.mkSelect [(CaseKind.promCase : CaseKind Nat)] [] []) [] 100 (some (0, true, some 42)) 0 1).world 0).1.sel.pending = [] ∧
    (Select.getCase (Select.recvSel (Select.waitM (Select.mkSelect [(CaseKind.promCase : CaseKind Nat)] [] []) [] 100 (some (0, true, some 42)) 0 1).world 0).1.sel 0).pidx = none ∧
    (Select.waitM (Select.mkSelect [(CaseKind.promCase : CaseKind Nat), CaseKind.promCase] [] [0]) [] 100 (some (1, false, some 7)) 0 1).res = some (.ok 1) ∧
    (Select.recvSel (Select.waitM (Select.mkSelect [(CaseKind.promCase : CaseKind Nat), CaseKind.promCase] [] [0]) [] 100 (some (1, false, some 7)) 0 1).world 1).2 = .error (.reason (some 7)) ∧
    (Select.recvSel (Select.waitM (Select.mkSelect [(CaseKind.promCase : CaseKind Nat), CaseKind.promCase] [] [0]) [] 100 (some (1, false, some 7)) 0 1).world 1).1.sel.pending = [0] ∧
    (Select.getCase (Select.recvSel (Select.waitM (Select.mkSelect [(CaseKind.promCase : CaseKind Nat), CaseKind.promCase] [] [0]) [] 100 (some (1, false, some 7)) 0 1).world 1).1.sel 0).pidx = some 0 ∧
    (Select.getCase (Select.recvSel (Select.waitM (Select.mkSelect [(CaseKind.promCase : CaseKind Nat), CaseKind.promCase] [] [0]) [] 100 (some (1, false, some 7)) 0 1).world 1).1.sel 1).pidx = none := by
  refine ⟨rfl, rfl, by decide, rfl, rfl, rfl, rfl, ?_, ?_, ?_⟩ <;> decide

/-! ## List-update and shuffle lemmas -/

theorem length_updateAt {β : Type} :
    ∀ (l : List β) (i : Nat) (f : β → β), (updateAt l i f).length = l.length := by
  intro l
  induction l with
  | nil => intro i f; rfl
  | cons x xs ih =>
    intro i f
    match i with
    | 0 => rfl
    | i + 1 => simp [updateAt, ih]

theorem getD_updateAt_self {β : Type} :
    ∀ (l : List β) (i : Nat) (f : β → β) (d : β), i < l.length →
    (updateAt l i f).getD i d = f (l.getD i d) := by
  intro l
  induction l with
  | nil => intro i f d h; simp at h
  | cons x xs ih =>
    intro i f d h
    match i with
    | 0 => rfl
    | i + 1 =>
      simp only [updateAt, List.getD_cons_succ]
      exact ih i f d (by simpa using h)

theorem getD_updateAt_ne {β : Type} :
    ∀ (l : List β) (i j : Nat) (f : β → β) (d : β), i ≠ j →
    (updateAt l i f).getD j d = l.getD j d := by
  intro l
  induction l with
  | nil => intro i j f d h; rfl
  | cons x xs ih =>
    intro i j f d h
    match i, j with
    | 0, 0 => exact absurd rfl h
    | 0, j + 1 => rfl
    | i + 1, 0 => rfl
    | i + 1, j + 1 =>
      simp only [updateAt, List.getD_cons_succ]
      exact ih i j f d (by omega)

theorem getD_updateAt_ge {β : Type} :
    ∀ (l : List β) (i : Nat) (f : β → β) (d : β), l.length ≤ i →
    (updateAt l i f).getD i d = l.getD i d := by
  intro l i f d h
  rw [List.getD_eq_default _ _ (by rw [length_updateAt]; exact h),
    List.getD_eq_default _ _ h]

namespace Select

variable {α : Type}

/-- `pidx` of the case with caseIndex `ci`. -/
def cpidx (cases : List (CaseSt α)) (ci : Nat) : Option Nat :=
  (cases.getD ci default).pidx

/-- Everything of a case state except `pidx`. -/
def NonPidxEq (c₁ c₂ : CaseSt α) : Prop :=
  c₁.kind = c₂.kind ∧ c₁.cidx = c₂.cidx ∧ c₁.ok = c₂.ok ∧
    c₁.next = c₂.next ∧ c₁.cscb = c₂.cscb ∧ c₁.crcb = c₂.crcb

theorem nonPidxEq_refl (c : CaseSt α) : NonPidxEq c c :=
  ⟨rfl, rfl, rfl, rfl, rfl, rfl⟩

theorem nonPidxEq_trans {a b c : CaseSt α}
    (h₁ : NonPidxEq a b) (h₂ : NonPidxEq b c) : NonPidxEq a c := by
  obtain ⟨x1, x2, x3, x4, x5, x6⟩ := h₁
  obtain ⟨y1, y2, y3, y4, y5, y6⟩ := h₂
  exact ⟨x1.trans y1, x2.trans y2, x3.trans y3, x4.trans y4,
    x5.trans y5, x6.trans y6⟩

theorem length_stampPidx (cases : List (CaseSt α)) (ci p : Nat) :
    (stampPidx cases ci p).length = cases.length :=
  length_updateAt cases ci _

theorem cpidx_stampPidx_self (cases : List (CaseSt α)) (ci p : Nat)
    (h : ci < cases.length) :
    cpidx (stampPidx cases ci p) ci = some p := by
  unfold cpidx stampPidx
  rw [getD_updateAt_self cases ci _ default h]

theorem cpidx_stampPidx_ne (cases : List (CaseSt α)) (ci ci' p : Nat)
    (h : ci ≠ ci') :
    cpidx (stampPidx cases ci p) ci' = cpidx cases ci' := by
  unfold cpidx stampPidx
  rw [getD_updateAt_ne cases ci ci' _ default h]

theorem getD_stampPidx_ne (cases : List (CaseSt α)) (ci ci' p : Nat)
    (h : ci ≠ ci') :
    (stampPidx cases ci p).getD ci' default = cases.getD ci' default := by
  unfold stampPidx
  rw [getD_updateAt_ne cases ci ci' _ default h]

theorem nonPidxEq_stampPidx (cases : List (CaseSt α)) (ci p : Nat) :
    ∀ ci', NonPidxEq ((stampPidx cases ci p).getD ci' default)
      (cases.getD ci' default) := by
  intro ci'
  by_cases hci : ci = ci'
  · subst hci
    by_cases hlt : ci < cases.length
    · unfold stampPidx
      rw [getD_updateAt_self cases ci _ default hlt]
      exact ⟨rfl, rfl, rfl, rfl, rfl, rfl⟩
    · unfold stampPidx
      rw [getD_updateAt_ge cases ci _ default (by omega)]
      exact nonPidxEq_refl _
  · rw [getD_stampPidx_ne cases ci ci' p hci]
    exact nonPidxEq_refl _

theorem length_swapIdx (l : List Nat) (a b : Nat) :
    (swapIdx l a b).length = l.length := by
  simp [swapIdx]

theorem getD_swapIdx (l : List Nat) (a b q : Nat) (ha : a < l.length)
    (hb : b < l.length) :
    (swapIdx l a b).getD q 0 =
      if q = b then l.getD a 0
      else if q = a then l.getD b 0
      else l.getD q 0 := by
  unfold swapIdx
  by_cases hqb : q = b
  · subst hqb
    rw [if_pos rfl]
    exact getD_set_self _ _ _ _ (by simpa using hb)
  · rw [if_neg hqb, getD_set_ne _ _ _ _ _ (fun h => hqb h.symm)]
    by_cases hqa : q = a
    · subst hqa
      rw [if_pos rfl]
      exact getD_set_self _ _ _ _ ha
    · rw [if_neg hqa, getD_set_ne _ _ _ _ _ (fun h => hqa h.symm)]

theorem swapIdx_perm (l : List Nat) (a b : Nat) (ha : a < l.length)
    (hb : b < l.length) : (swapIdx l a b).Perm l := by
  rw [List.perm_iff_count]
  intro x
  have hb' : b < (l.set a (l.getD b 0)).length := by simpa using hb
  unfold swapIdx
  rw [List.count_set _ _ _ _ hb', List.count_set _ _ _ _ ha]
  rw [List.getElem_set hb']
  simp only [List.getD_eq_getElem l 0 ha, List.getD_eq_getElem l 0 hb]
  have hma : l[a] = x → 1 ≤ l.count x := fun h =>
    List.one_le_count_iff.mpr (h ▸ List.getElem_mem ha)
  have hmb : l[b] = x → 1 ≤ l.count x := fun h =>
    List.one_le_count_iff.mpr (h ▸ List.getElem_mem hb)
  by_cases hab : a = b
  · subst hab
    by_cases hax : l[a] = x
    · have h1 := hma hax
      have hax' : (l[a] == x) = true := by simpa using hax
      simp [hax']
      all_goals omega
    · have hax' : (l[a] == x) = false := by simpa using hax
      simp [hax']
  · rw [if_neg hab]
    by_cases hax : l[a] = x <;> by_cases hbx : l[b] = x
    · have h1 := hma hax
      have hax' : (l[a] == x) = true := by simpa using hax
      have hbx' : (l[b] == x) = true := by simpa using hbx
      simp [hax', hbx']
      all_goals omega
    · have h1 := hma hax
      have hax' : (l[a] == x) = true := by simpa using hax
      have hbx' : (l[b] == x) = false := by simpa using hbx
      simp [hax', hbx']
      all_goals omega
    · have h2 := hmb hbx
      have hax' : (l[a] == x) = false := by simpa using hax
      have hbx' : (l[b] == x) = true := by simpa using hbx
      simp [hax', hbx']
    · have hax' : (l[a] == x) = false := by simpa using hax
      have hbx' : (l[b] == x) = false := by simpa using hbx
      simp [hax', hbx']

end Select

namespace Select

variable {α : Type}

theorem nodup_getD_inj {l : List Nat} (h : l.Nodup) {p q : Nat}
    (hp : p < l.length) (hq : q < l.length)
    (he : l.getD p 0 = l.getD q 0) : p = q := by
  rw [List.getD_eq_getElem l 0 hp, List.getD_eq_getElem l 0 hq] at he
  exact (List.Nodup.getElem_inj_iff h).mp he

theorem getD_mem {l : List Nat} {q : Nat} (hq : q < l.length) :
    l.getD q 0 ∈ l := by
  rw [List.getD_eq_getElem l 0 hq]
  exact List.getElem_mem hq

/-- The induction invariant for the Fisher-Yates loop: the pending array
is permuted in place, positions above `i` are already final, every
position in `1 … i` ends up stamped with itself, case states of entries
not in the processed prefix are untouched, and nothing but `pidx` ever
changes. -/
theorem fyLoop_spec :
    ∀ (i : Nat) (rnds pending : List Nat) (cases : List (CaseSt α)),
    i < pending.length → pending.Nodup →
    (∀ x ∈ pending, x < cases.length) →
    (fyLoop i rnds pending cases).1.Perm pending ∧
    (fyLoop i rnds pending cases).2.length = cases.length ∧
    (∀ q, i < q → q < pending.length →
      (fyLoop i rnds pending cases).1.getD q 0 = pending.getD q 0) ∧
    (∀ q, 1 ≤ q → q ≤ i →
      cpidx (fyLoop i rnds pending cases).2
        ((fyLoop i rnds pending cases).1.getD q 0) = some q) ∧
    (∀ ci, (∀ q₀, q₀ ≤ i → pending.getD q₀ 0 ≠ ci) →
      (fyLoop i rnds pending cases).2.getD ci default
        = cases.getD ci default) ∧
    (∀ ci, NonPidxEq ((fyLoop i rnds pending cases).2.getD ci default)
      (cases.getD ci default)) := by
  intro i
  induction i with
  | zero =>
    intro rnds pending cases _ _ _
    exact ⟨List.Perm.refl _, rfl, fun q _ _ => rfl,
      fun q h1 h2 => absurd (le_trans h1 h2) (by omega),
      fun ci _ => rfl, fun ci => nonPidxEq_refl _⟩
  | succ i ih =>
    intro rnds pending cases hi hnd hlt
    have hjlt2 : rnds.headD 0 % (i + 2) < i + 2 := Nat.mod_lt _ (by omega)
    have hstep : fyLoop (i + 1) rnds pending cases
        = fyLoop i rnds.tail
            (swapIdx pending (i + 1) (rnds.headD 0 % (i + 2)))
            (stampPidx
              (stampPidx cases (pending.getD (rnds.headD 0 % (i + 2)) 0) (i + 1))
              (pending.getD (i + 1) 0) (rnds.headD 0 % (i + 2))) := rfl
    rw [hstep]
    set jv := rnds.headD 0 % (i + 2) with hjdef
    set aval := pending.getD (i + 1) 0 with hadef
    set bval := pending.getD jv 0 with hbdef
    set pend₁ := swapIdx pending (i + 1) jv with hpdef
    set cases₂ := stampPidx (stampPidx cases bval (i + 1)) aval jv with hcdef
    have hj1 : jv ≤ i + 1 := by omega
    have hjlt : jv < pending.length := by omega
    have hperm₁ : pend₁.Perm pending := swapIdx_perm pending (i + 1) jv hi hjlt
    have hlen₁ : pend₁.length = pending.length := length_swapIdx pending (i + 1) jv
    have hnd₁ : pend₁.Nodup := (hperm₁.nodup_iff).mpr hnd
    have hclen : cases₂.length = cases.length := by
      rw [hcdef, length_stampPidx, length_stampPidx]
    have hbd₁ : ∀ x ∈ pend₁, x < cases₂.length := by
      intro x hx
      rw [hclen]
      exact hlt x (hperm₁.mem_iff.mp hx)
    have hi' : i < pend₁.length := by omega
    have hchar : ∀ q, pend₁.getD q 0 =
        if q = jv then aval else if q = i + 1 then bval else pending.getD q 0 :=
      fun q => getD_swapIdx pending (i + 1) jv q hi hjlt
    have hblt : bval < cases.length := hlt _ (getD_mem hjlt)
    have halt : aval < cases.length := hlt _ (getD_mem hi)
    obtain ⟨ihP, ihL, ih3, ih4, ih6, ih9⟩ := ih rnds.tail pend₁ cases₂ hi' hnd₁ hbd₁
    refine ⟨ihP.trans hperm₁, ihL.trans hclen, ?_, ?_, ?_, ?_⟩
    · -- positions above i+1 are untouched
      intro q hq1 hq2
      rw [ih3 q (by omega) (by omega), hchar q, if_neg (by omega),
        if_neg (by omega)]
    · -- stamped positions 1 … i+1
      intro q hq1 hq2
      rcases Nat.lt_or_ge q (i + 1) with hqi | hqi
      · exact ih4 q hq1 (by omega)
      · have hq : q = i + 1 := by omega
        subst hq
        have hgq : (fyLoop i rnds.tail pend₁ cases₂).1.getD (i + 1) 0 = bval := by
          rw [ih3 (i + 1) (by omega) (by omega), hchar (i + 1)]
          by_cases hji : jv = i + 1
          · rw [if_pos hji.symm]
            rw [hadef, hbdef, hji]
          · rw [if_neg (fun h => hji h.symm), if_pos rfl]
        rw [hgq]
        have hb₂ : cpidx cases₂ bval = some (i + 1) := by
          by_cases hji : jv = i + 1
          · have hab : aval = bval := by rw [hadef, hbdef, hji]
            rw [hcdef, hab, hji]
            exact cpidx_stampPidx_self _ _ _
              (by rw [length_stampPidx]; exact hblt)
          · have hab : aval ≠ bval := by
              intro hcon
              exact hji (nodup_getD_inj hnd hi hjlt hcon).symm
            rw [hcdef, cpidx_stampPidx_ne _ _ _ _ hab,
              cpidx_stampPidx_self _ _ _ hblt]
        rw [← hb₂]
        show ((fyLoop i rnds.tail pend₁ cases₂).2.getD bval default).pidx
          = (cases₂.getD bval default).pidx
        apply congrArg CaseSt.pidx
        apply ih6
        intro q₀ hq₀
        rw [hchar q₀]
        by_cases hq₀j : q₀ = jv
        · rw [if_pos hq₀j]
          intro hcon
          have : i + 1 = jv := nodup_getD_inj hnd hi hjlt hcon
          omega
        · rw [if_neg hq₀j, if_neg (by omega)]
          intro hcon
          exact hq₀j (nodup_getD_inj hnd (by omega) hjlt hcon)
    · -- untouched case states
      intro ci hci
      have hbne : bval ≠ ci := hci jv hj1
      have hane : aval ≠ ci := hci (i + 1) (le_refl _)
      rw [ih6 ci ?hyp]
      · rw [hcdef, getD_stampPidx_ne _ _ _ _ hane, getD_stampPidx_ne _ _ _ _ hbne]
      case hyp =>
        intro q₀ hq₀
        rw [hchar q₀]
        by_cases hq₀j : q₀ = jv
        · rw [if_pos hq₀j]
          exact hane
        · rw [if_neg hq₀j, if_neg (by omega)]
          exact hci q₀ (by omega)
    · -- only pidx ever changes
      intro ci
      refine nonPidxEq_trans (ih9 ci) ?_
      rw [hcdef]
      exact nonPidxEq_trans (nonPidxEq_stampPidx _ _ _ ci)
        (nonPidxEq_stampPidx _ _ _ ci)

end Select

namespace Select

variable {α : Type}

/-- The full spec of `fisherYatesShuffle`: the pending array is permuted,
every position (including 0) is stamped into the corresponding case's
`pidx`, non-members keep their case state, and nothing but `pidx`
changes anywhere. -/
theorem fisherYatesShuffle_spec (pending : List Nat) (cases : List (CaseSt α))
    (rnds : List Nat) (hnd : pending.Nodup)
    (hlt : ∀ x ∈ pending, x < cases.length) :
    (fisherYatesShuffle pending cases rnds).1.Perm pending ∧
    (fisherYatesShuffle pending cases rnds).2.length = cases.length ∧
    (∀ q, q < pending.length →
      cpidx (fisherYatesShuffle pending cases rnds).2
        ((fisherYatesShuffle pending cases rnds).1.getD q 0) = some q) ∧
    (∀ ci, ci ∉ pending →
      (fisherYatesShuffle pending cases rnds).2.getD ci default
        = cases.getD ci default) ∧
    (∀ ci, NonPidxEq
      ((fisherYatesShuffle pending cases rnds).2.getD ci default)
      (cases.getD ci default)) := by
  match hpend : pending with
  | [] =>
    refine ⟨List.Perm.refl _, rfl, ?_, fun ci _ => rfl, fun ci => nonPidxEq_refl _⟩
    intro q hq
    simp at hq
  | x :: xs =>
    have hipos : (x :: xs).length - 1 < (x :: xs).length := by
      simp
    obtain ⟨ihP, ihL, ih3, ih4, ih6, ih9⟩ :=
      fyLoop_spec ((x :: xs).length - 1) rnds (x :: xs) cases hipos hnd hlt
    have hlenp : (fyLoop ((x :: xs).length - 1) rnds (x :: xs) cases).1.length
        = (x :: xs).length := ihP.length_eq
    have hne : (fyLoop ((x :: xs).length - 1) rnds (x :: xs) cases).1 ≠ [] := by
      intro hcon
      rw [hcon] at hlenp
      simp at hlenp
    have hnd' : (fyLoop ((x :: xs).length - 1) rnds (x :: xs) cases).1.Nodup :=
      ihP.nodup_iff.mpr hnd
    match hfy : fyLoop ((x :: xs).length - 1) rnds (x :: xs) cases with
    | (p, c) =>
    rw [hfy] at ihP ihL ih3 ih4 ih6 ih9 hlenp hne hnd'
    match hp : p with
    | [] => exact absurd rfl hne
    | y :: ys =>
    subst hp
    have hshuf : fisherYatesShuffle (x :: xs) cases rnds
        = (y :: ys, stampPidx c y 0) := by
      unfold fisherYatesShuffle
      rw [hfy]
    rw [hshuf]
    have hymem : y ∈ x :: xs := ihP.mem_iff.mp (List.mem_cons_self y ys)
    have hylt : y < cases.length := hlt y hymem
    have hylt' : y < c.length := by rw [ihL]; exact hylt
    refine ⟨ihP, (length_stampPidx c y 0).trans ihL, ?_, ?_, ?_⟩
    · intro q hq
      match q with
      | 0 =>
        show cpidx (stampPidx c y 0) ((y :: ys).getD 0 0) = some 0
        exact cpidx_stampPidx_self c y 0 hylt'
      | q + 1 =>
        have hqlen : q + 1 < (y :: ys).length := by rw [hlenp]; exact hq
        have hneq : y ≠ (y :: ys).getD (q + 1) 0 := by
          intro hcon
          have h0 : (y :: ys).getD 0 0 = (y :: ys).getD (q + 1) 0 := hcon
          have := nodup_getD_inj hnd' (by simp) hqlen h0
          omega
        rw [show cpidx (stampPidx c y 0) ((y :: ys).getD (q + 1) 0)
            = cpidx c ((y :: ys).getD (q + 1) 0) from
          cpidx_stampPidx_ne c y _ 0 hneq]
        exact ih4 (q + 1) (by omega) (by omega)
    · intro ci hci
      have hyne : y ≠ ci := fun hcon => hci (hcon ▸ hymem)
      rw [getD_stampPidx_ne c y ci 0 hyne]
      apply ih6
      intro q₀ hq₀
      have hq₀' : q₀ < (x :: xs).length := by
        have hl := hlenp
        simp at hl hq₀ ⊢
        omega
      intro hcon
      exact hci (hcon ▸ getD_mem hq₀')
    · intro ci
      exact nonPidxEq_trans (nonPidxEq_stampPidx c y 0 ci) (ih9 ci)

end Select

namespace Select

variable {α : Type}

/-- The pidx invariant of a pending/cases pair: pending is duplicate-free,
every pending position `p` holds a valid case index whose `pidx` is
stamped `p`, and a case's `pidx` is defined exactly when the case is a
member of the pending array. -/
def WFpc (pending : List Nat) (cases : List (CaseSt α)) : Prop :=
  pending.Nodup ∧
  (∀ p, p < pending.length →
    pending.getD p 0 < cases.length ∧
    cpidx cases (pending.getD p 0) = some p) ∧
  (∀ i, i < cases.length → ((cpidx cases i).isSome ↔ i ∈ pending))

instance (pending : List Nat) (cases : List (CaseSt α)) :
    Decidable (WFpc pending cases) := by
  unfold WFpc
  infer_instance

/-- The pidx invariant of a select state. -/
def WFsel (sel : SelSt α) : Prop := WFpc sel.pending sel.cases

instance (sel : SelSt α) : Decidable (WFsel sel) := by
  unfold WFsel
  infer_instance

/-- Two select states agreeing on everything the pidx invariant reads. -/
def PidxEq (s₁ s₂ : SelSt α) : Prop :=
  s₁.pending = s₂.pending ∧ s₁.cases.length = s₂.cases.length ∧
  ∀ i, cpidx s₁.cases i = cpidx s₂.cases i

theorem pidxEq_refl (s : SelSt α) : PidxEq s s := ⟨rfl, rfl, fun _ => rfl⟩

theorem pidxEq_trans {s₁ s₂ s₃ : SelSt α}
    (h₁ : PidxEq s₁ s₂) (h₂ : PidxEq s₂ s₃) : PidxEq s₁ s₃ :=
  ⟨h₁.1.trans h₂.1, h₁.2.1.trans h₂.2.1, fun i => (h₁.2.2 i).trans (h₂.2.2 i)⟩

theorem wfsel_of_pidxEq {s₁ s₂ : SelSt α}
    (h : PidxEq s₁ s₂) (hw : WFsel s₂) : WFsel s₁ := by
  obtain ⟨hp, hl, hc⟩ := h
  obtain ⟨w1, w2, w3⟩ := hw
  refine ⟨hp ▸ w1, ?_, ?_⟩
  · intro p hlt
    rw [hp] at hlt ⊢
    rw [hl, hc]
    exact w2 p hlt
  · intro i hi
    rw [hl] at hi
    rw [hc, hp]
    exact w3 i hi

theorem cpidx_updateAt_preserve (cases : List (CaseSt α)) (i : Nat)
    (f : CaseSt α → CaseSt α) (hf : ∀ c, (f c).pidx = c.pidx) :
    ∀ j, cpidx (updateAt cases i f) j = cpidx cases j := by
  intro j
  by_cases hij : i = j
  · subst hij
    by_cases hlt : i < cases.length
    · unfold cpidx
      rw [getD_updateAt_self _ _ _ _ hlt, hf]
    · unfold cpidx
      rw [getD_updateAt_ge _ _ _ _ (by omega)]
  · unfold cpidx
    rw [getD_updateAt_ne _ _ _ _ _ hij]

theorem pidxEq_markCase (w : World α) (i : Nat) (f : CaseSt α → CaseSt α)
    (hf : ∀ c, (f c).pidx = c.pidx) : PidxEq (markCase w i f).sel w.sel :=
  ⟨rfl, length_updateAt _ _ _, cpidx_updateAt_preserve _ _ _ hf⟩

theorem pidxEq_consumeNext (sel : SelSt α) : PidxEq (consumeNext sel) sel := by
  unfold consumeNext
  match sel.next with
  | none => exact pidxEq_refl _
  | some i =>
    exact ⟨rfl, length_updateAt _ _ _,
      cpidx_updateAt_preserve _ _ _ fun c => rfl⟩

theorem consumeNext_reshuffle (sel : SelSt α) :
    (consumeNext sel).reshuffle = sel.reshuffle := by
  unfold consumeNext
  match sel.next with
  | none => rfl
  | some i => rfl

theorem consumeNext_pending (sel : SelSt α) :
    (consumeNext sel).pending = sel.pending := by
  unfold consumeNext
  match sel.next with
  | none => rfl
  | some i => rfl

theorem consumeNext_waiting (sel : SelSt α) :
    (consumeNext sel).waiting = sel.waiting := by
  unfold consumeNext
  match sel.next with
  | none => rfl
  | some i => rfl

/-- The shuffle re-establishes the pidx invariant from duplicate-freeness,
boundedness and unstamped non-members. -/
theorem fisherYatesShuffle_WFpc (pending : List Nat) (cases : List (CaseSt α))
    (rnds : List Nat) (hnd : pending.Nodup)
    (hbd : ∀ x ∈ pending, x < cases.length)
    (hnone : ∀ i, i < cases.length → i ∉ pending → cpidx cases i = none) :
    WFpc (fisherYatesShuffle pending cases rnds).1
      (fisherYatesShuffle pending cases rnds).2 := by
  obtain ⟨sP, sL, s3, s4, _⟩ := fisherYatesShuffle_spec pending cases rnds hnd hbd
  have hlenp : (fisherYatesShuffle pending cases rnds).1.length = pending.length :=
    sP.length_eq
  refine ⟨sP.nodup_iff.mpr hnd, ?_, ?_⟩
  · intro p hp
    rw [hlenp] at hp
    refine ⟨?_, s3 p hp⟩
    rw [sL]
    exact hbd _ (sP.mem_iff.mp (getD_mem (by omega)))
  · intro i hi
    rw [sL] at hi
    by_cases hmem : i ∈ (fisherYatesShuffle pending cases rnds).1
    · obtain ⟨q, hq, he⟩ := List.mem_iff_getElem.mp hmem
      have hgd : (fisherYatesShuffle pending cases rnds).1.getD q 0 = i := by
        rw [List.getD_eq_getElem _ 0 hq]
        exact he
      have := s3 q (by omega)
      rw [hgd] at this
      simp [this, hmem]
    · have hnm : i ∉ pending := fun hcon => hmem (sP.mem_iff.mpr hcon)
      have : cpidx (fisherYatesShuffle pending cases rnds).2 i = none := by
        unfold cpidx
        rw [s4 i hnm]
        exact hnone i hi hnm
      simp [this, hmem]

/-- The constructor establishes the pidx invariant. -/
theorem mkSelect_WF (kinds : List (CaseKind α)) (chans : List (Chan α))
    (rnds : List Nat) : WFsel (mkSelect kinds chans rnds).sel := by
  have hlen : (mkCases kinds).length = kinds.length := by
    unfold mkCases
    rw [List.length_map, List.length_range]
  have h := fisherYatesShuffle_WFpc (List.range (mkCases kinds).length)
    (mkCases (α := α) kinds) rnds (List.nodup_range _)
    (fun x hx => List.mem_range.mp hx)
    (fun i hi hnm => absurd (List.mem_range.mpr hi) hnm)
  exact h

end Select

namespace Select

variable {α : Type}

theorem probeSend_pidxEq (w : World α) (cidx chIdx : Nat) (expr : α) :
    PidxEq (probeSend w cidx chIdx expr).1.sel w.sel := by
  simp only [probeSend]
  split
  · exact pidxEq_refl _
  · split
    · split
      · exact pidxEq_markCase _ _ _ fun c => rfl
      · exact pidxEq_markCase _ _ _ fun c => rfl
    · split
      · exact pidxEq_refl _
      · split
        · split
          · exact pidxEq_refl _
          · split
            · exact pidxEq_markCase _ _ _ fun c => rfl
            · exact pidxEq_markCase _ _ _ fun c => rfl
        · exact pidxEq_refl _

theorem probeRecvRest_pidxEq (w : World α) (cidx chIdx : Nat) :
    PidxEq (probeRecvRest w cidx chIdx).1.sel w.sel := by
  simp only [probeRecvRest]
  split
  · split
    · exact pidxEq_refl _
    · exact pidxEq_markCase _ _ _ fun c => rfl
  · split
    · exact pidxEq_markCase _ _ _ fun c => rfl
    · exact pidxEq_refl _

theorem probeRecv_pidxEq (w : World α) (cidx chIdx : Nat) :
    PidxEq (probeRecv w cidx chIdx).1.sel w.sel := by
  simp only [probeRecv]
  split
  · exact pidxEq_refl _
  · split
    · split
      · exact probeRecvRest_pidxEq _ _ _
      · split
        · exact pidxEq_markCase _ _ _ fun c => rfl
        · exact pidxEq_markCase _ _ _ fun c => rfl
    · exact probeRecvRest_pidxEq _ _ _

theorem pollScan_pidxEq :
    ∀ (l : List Nat) (w : World α), PidxEq (pollScan w l).1.sel w.sel := by
  intro l
  induction l with
  | nil =>
    intro w
    exact ⟨rfl, rfl, fun _ => rfl⟩
  | cons ci rest ih =>
    intro w
    simp only [pollScan]
    split
    · split <;> exact ⟨rfl, rfl, fun _ => rfl⟩
    · split
      · -- send case
        rename_i chIdx expr hkind
        split
        · exact pidxEq_refl _
        · have hps := probeSend_pidxEq w ci chIdx expr
          rcases hres : probeSend w ci chIdx expr with ⟨w₁, res⟩
          rw [hres] at hps
          cases res with
          | error e => exact hps
          | ok pr =>
            cases pr with
            | ready => exact pidxEq_trans (⟨rfl, rfl, fun _ => rfl⟩ : PidxEq _ _) hps
            | notReady => exact pidxEq_trans (ih _) hps
      · -- recv case
        rename_i chIdx hkind
        split
        · exact pidxEq_refl _
        · have hps := probeRecv_pidxEq w ci chIdx
          rcases hres : probeRecv w ci chIdx with ⟨w₁, res⟩
          rw [hres] at hps
          cases res with
          | error e => exact hps
          | ok pr =>
            cases pr with
            | ready => exact pidxEq_trans (⟨rfl, rfl, fun _ => rfl⟩ : PidxEq _ _) hps
            | notReady => exact pidxEq_trans (ih _) hps
      · exact ih _

end Select

namespace Select

variable {α : Type}

theorem wfpc_mem_lt {pending : List Nat} {cases : List (CaseSt α)}
    (h : WFpc pending cases) : ∀ x ∈ pending, x < cases.length := by
  intro x hx
  obtain ⟨q, hq, he⟩ := List.mem_iff_getElem.mp hx
  have hb := (h.2.1 q hq).1
  rwa [List.getD_eq_getElem _ 0 hq, he] at hb

theorem wfpc_not_mem_none {pending : List Nat} {cases : List (CaseSt α)}
    (h : WFpc pending cases) :
    ∀ i, i < cases.length → i ∉ pending → cpidx cases i = none := by
  intro i hi hnm
  cases hc : cpidx cases i with
  | none => rfl
  | some p =>
    exact absurd ((h.2.2 i hi).mp (by rw [hc]; rfl)) hnm

/-- One-step unfolding of `poll`, with the pair destructurings resolved
into projections. -/
theorem poll_eq (w : World α) (rnds : List Nat) :
    poll w rnds =
      if w.sel.waiting then
        { world := w, res := .error (some .casesInUse), didShuffle := false }
      else if (consumeNext w.sel).reshuffle then
        { world := (pollScan { w with sel := { consumeNext w.sel with
              pending := (fisherYatesShuffle (consumeNext w.sel).pending
                (consumeNext w.sel).cases rnds).1
              cases := (fisherYatesShuffle (consumeNext w.sel).pending
                (consumeNext w.sel).cases rnds).2 } }
            (fisherYatesShuffle (consumeNext w.sel).pending
              (consumeNext w.sel).cases rnds).1).1
          res := (pollScan { w with sel := { consumeNext w.sel with
              pending := (fisherYatesShuffle (consumeNext w.sel).pending
                (consumeNext w.sel).cases rnds).1
              cases := (fisherYatesShuffle (consumeNext w.sel).pending
                (consumeNext w.sel).cases rnds).2 } }
            (fisherYatesShuffle (consumeNext w.sel).pending
              (consumeNext w.sel).cases rnds).1).2
          didShuffle := true }
      else
        { world := (pollScan { w with sel := { consumeNext w.sel with
              reshuffle := true } } (consumeNext w.sel).pending).1
          res := (pollScan { w with sel := { consumeNext w.sel with
              reshuffle := true } } (consumeNext w.sel).pending).2
          didShuffle := false } := by
  unfold poll
  split
  · rfl
  · by_cases hr : (consumeNext w.sel).reshuffle = true
    · simp only [hr]
    · simp only [hr]

/-- `poll` preserves the pidx invariant. -/
theorem poll_WF (w : World α) (rnds : List Nat) (hwf : WFsel w.sel) :
    WFsel (poll w rnds).world.sel := by
  rw [poll_eq]
  have hwf₁ : WFsel (consumeNext w.sel) :=
    wfsel_of_pidxEq (pidxEq_consumeNext _) hwf
  split
  · exact hwf
  · split
    · exact wfsel_of_pidxEq (pollScan_pidxEq _ _)
        (fisherYatesShuffle_WFpc _ _ rnds hwf₁.1 (wfpc_mem_lt hwf₁)
          (wfpc_not_mem_none hwf₁))
    · exact wfsel_of_pidxEq (pollScan_pidxEq _ _) hwf₁

end Select

namespace Select

variable {α : Type}

theorem getD_eraseIdx_lt (l : List Nat) (i j : Nat) (hj : j < i)
    (hi : i < l.length) : (l.eraseIdx i).getD j 0 = l.getD j 0 := by
  have hjl : j < (l.eraseIdx i).length := by
    rw [List.length_eraseIdx_of_lt hi]
    omega
  rw [List.getD_eq_getElem _ 0 hjl, List.getD_eq_getElem _ 0 (by omega)]
  exact List.getElem_eraseIdx_of_lt l i j hjl hj

theorem getD_eraseIdx_ge (l : List Nat) (i j : Nat) (hij : i ≤ j)
    (hi : i < l.length) (hj : j + 1 < l.length) :
    (l.eraseIdx i).getD j 0 = l.getD (j + 1) 0 := by
  have hjl : j < (l.eraseIdx i).length := by
    rw [List.length_eraseIdx_of_lt hi]
    omega
  rw [List.getD_eq_getElem _ 0 hjl, List.getD_eq_getElem _ 0 hj]
  exact List.getElem_eraseIdx_of_ge l i j hjl hij

theorem getD_drop (l : List Nat) (n m : Nat) (h : n + m < l.length) :
    (l.drop n).getD m 0 = l.getD (n + m) 0 := by
  have hm : m < (l.drop n).length := by
    rw [List.length_drop]
    omega
  rw [List.getD_eq_getElem _ 0 hm, List.getD_eq_getElem _ 0 h]
  exact List.getElem_drop l

theorem restampAll_length (l : List Nat) :
    ∀ (idx : Nat) (cases : List (CaseSt α)),
    (restampAll l idx cases).length = cases.length := by
  induction l with
  | nil => intro idx cases; rfl
  | cons ci rest ih =>
    intro idx cases
    show (restampAll rest (idx + 1) (stampPidx cases ci idx)).length = _
    rw [ih, length_stampPidx]

theorem restampAll_nonPidxEq (l : List Nat) :
    ∀ (idx : Nat) (cases : List (CaseSt α)) (j : Nat),
    NonPidxEq ((restampAll l idx cases).getD j default) (cases.getD j default) := by
  induction l with
  | nil => intro idx cases j; exact nonPidxEq_refl _
  | cons ci rest ih =>
    intro idx cases j
    exact nonPidxEq_trans (ih (idx + 1) (stampPidx cases ci idx) j)
      (nonPidxEq_stampPidx cases ci idx j)

theorem restampAll_getD_not_mem (l : List Nat) :
    ∀ (idx : Nat) (cases : List (CaseSt α)) (j : Nat), j ∉ l →
    (restampAll l idx cases).getD j default = cases.getD j default := by
  induction l with
  | nil => intro idx cases j _; rfl
  | cons ci rest ih =>
    intro idx cases j hj
    have hjr : j ∉ rest := fun hc => hj (List.mem_cons_of_mem _ hc)
    have hjc : ci ≠ j := fun hc => hj (hc ▸ List.mem_cons_self ci rest)
    show (restampAll rest (idx + 1) (stampPidx cases ci idx)).getD j default = _
    rw [ih (idx + 1) _ j hjr, getD_stampPidx_ne _ _ _ _ hjc]

theorem restampAll_cpidx (l : List Nat) :
    ∀ (idx : Nat) (cases : List (CaseSt α)), l.Nodup →
    (∀ x ∈ l, x < cases.length) →
    ∀ k, k < l.length →
    cpidx (restampAll l idx cases) (l.getD k 0) = some (idx + k) := by
  induction l with
  | nil =>
    intro idx cases _ _ k hk
    simp at hk
  | cons ci rest ih =>
    intro idx cases hnd hbd k hk
    match k with
    | 0 =>
      have hcm : ci ∉ rest := (List.nodup_cons.mp hnd).1
      show cpidx (restampAll rest (idx + 1) (stampPidx cases ci idx)) ci
        = some idx
      unfold cpidx
      rw [restampAll_getD_not_mem rest (idx + 1) _ ci hcm]
      have := cpidx_stampPidx_self cases ci idx
        (hbd ci (List.mem_cons_self ci rest))
      unfold cpidx at this
      exact this
    | k + 1 =>
      show cpidx (restampAll rest (idx + 1) (stampPidx cases ci idx))
        (rest.getD k 0) = some (idx + (k + 1))
      have hres := ih (idx + 1) (stampPidx cases ci idx)
        (List.nodup_cons.mp hnd).2
        (fun x hx => by
          rw [length_stampPidx]
          exact hbd x (List.mem_cons_of_mem _ hx))
        k (by simpa using hk)
      rw [hres]
      congr 1
      omega

end Select

namespace Select

variable {α : Type}

/-- Splicing position `p` (holding case index `i`) out of the pending
array, re-stamping the tail and clearing the removed case's `pidx`
preserves the pidx invariant — the core of `Select.recv` on a settled
promise case. -/
theorem splice_WFpc {pending : List Nat} {cases : List (CaseSt α)}
    (hwf : WFpc pending cases) (i p : Nat)
    (hi : i < cases.length)
    (hp : p < pending.length) (hpi : pending.getD p 0 = i) :
    WFpc (pending.eraseIdx p)
      (updateAt (restampAll ((pending.eraseIdx p).drop p) p cases) i
        (fun cc => { cc with pidx := none })) := by
  have hnd : pending.Nodup := hwf.1
  have hlen₁ : (pending.eraseIdx p).length = pending.length - 1 :=
    List.length_eraseIdx_of_lt hp
  have hnd₁ : (pending.eraseIdx p).Nodup :=
    (List.eraseIdx_sublist pending p).nodup hnd
  have hsub : ∀ x ∈ pending.eraseIdx p, x ∈ pending :=
    fun x hx => (List.eraseIdx_sublist pending p).subset hx
  have hndD : ((pending.eraseIdx p).drop p).Nodup :=
    (List.drop_sublist p (pending.eraseIdx p)).nodup hnd₁
  have hbdD : ∀ x ∈ (pending.eraseIdx p).drop p, x < cases.length :=
    fun x hx => wfpc_mem_lt hwf x (hsub x (List.drop_subset _ _ hx))
  have hDlen : ((pending.eraseIdx p).drop p).length
      = (pending.eraseIdx p).length - p := List.length_drop _ _
  have hC₁len : (restampAll ((pending.eraseIdx p).drop p) p cases).length
      = cases.length := restampAll_length _ _ _
  have hC₂len : (updateAt (restampAll ((pending.eraseIdx p).drop p) p cases) i
      (fun cc => { cc with pidx := none })).length = cases.length := by
    rw [length_updateAt, hC₁len]
  have hinot : i ∉ pending.eraseIdx p := by
    intro hcon
    obtain ⟨q, hq, he⟩ := List.mem_iff_getElem.mp hcon
    have hgd : (pending.eraseIdx p).getD q 0 = i := by
      rw [List.getD_eq_getElem _ 0 hq]
      exact he
    rcases Nat.lt_or_ge q p with hqp | hqp
    · rw [getD_eraseIdx_lt pending p q hqp hp] at hgd
      have := nodup_getD_inj hnd (by omega) hp (hgd.trans hpi.symm)
      omega
    · rw [getD_eraseIdx_ge pending p q hqp hp (by omega)] at hgd
      have := nodup_getD_inj hnd (by omega) hp (hgd.trans hpi.symm)
      omega
  have hstamp : ∀ q, q < (pending.eraseIdx p).length →
      cpidx (updateAt (restampAll ((pending.eraseIdx p).drop p) p cases) i
        (fun cc => { cc with pidx := none })) ((pending.eraseIdx p).getD q 0)
        = some q := by
    intro q hq
    have hvne : i ≠ (pending.eraseIdx p).getD q 0 := by
      intro hcon
      exact hinot (hcon ▸ getD_mem hq)
    unfold cpidx
    rw [getD_updateAt_ne _ _ _ _ _ hvne]
    rcases Nat.lt_or_ge q p with hqp | hqp
    · have hvD : (pending.eraseIdx p).getD q 0 ∉ (pending.eraseIdx p).drop p := by
        intro hcon
        obtain ⟨k, hk, he⟩ := List.mem_iff_getElem.mp hcon
        have hkd : ((pending.eraseIdx p).drop p).getD k 0
            = (pending.eraseIdx p).getD q 0 := by
          rw [List.getD_eq_getElem _ 0 hk]
          exact he
        rw [getD_drop _ p k (by omega)] at hkd
        have := nodup_getD_inj hnd₁ (by omega) hq hkd
        omega
      rw [restampAll_getD_not_mem _ _ _ _ hvD,
        getD_eraseIdx_lt pending p q hqp hp]
      have := (hwf.2.1 q (by omega)).2
      unfold cpidx at this
      exact this
    · have hqD : q - p < ((pending.eraseIdx p).drop p).length := by omega
      have hvD : (pending.eraseIdx p).getD q 0
          = ((pending.eraseIdx p).drop p).getD (q - p) 0 := by
        rw [getD_drop _ p (q - p) (by omega)]
        congr 1
        omega
      rw [hvD]
      have := restampAll_cpidx _ p cases hndD hbdD (q - p) hqD
      unfold cpidx at this
      rw [this]
      congr 1
      omega
  refine ⟨hnd₁, ?_, ?_⟩
  · intro q hq
    refine ⟨?_, hstamp q hq⟩
    rw [hC₂len]
    exact wfpc_mem_lt hwf _ (hsub _ (getD_mem hq))
  · intro j hj
    rw [hC₂len] at hj
    by_cases hji : j = i
    · subst hji
      have hcp : cpidx (updateAt (restampAll ((pending.eraseIdx p).drop p) p
          cases) j (fun cc => { cc with pidx := none })) j = none := by
        unfold cpidx
        rw [getD_updateAt_self _ _ _ _ (by rw [hC₁len]; exact hj)]
      simp [hcp, hinot]
    · have hcC₁ : cpidx (updateAt (restampAll ((pending.eraseIdx p).drop p) p
          cases) i (fun cc => { cc with pidx := none })) j
          = cpidx (restampAll ((pending.eraseIdx p).drop p) p cases) j := by
        unfold cpidx
        rw [getD_updateAt_ne _ _ _ _ _ fun hc => hji hc.symm]
      by_cases hmem : j ∈ pending.eraseIdx p
      · obtain ⟨q, hq, he⟩ := List.mem_iff_getElem.mp hmem
        have hgd : (pending.eraseIdx p).getD q 0 = j := by
          rw [List.getD_eq_getElem _ 0 hq]
          exact he
        have := hstamp q hq
        rw [hgd] at this
        simp [this, hmem]
      · have hjD : j ∉ (pending.eraseIdx p).drop p :=
          fun hc => hmem (List.drop_subset _ _ hc)
        have hjpend : j ∉ pending := by
          intro hcon
          obtain ⟨q, hq, he⟩ := List.mem_iff_getElem.mp hcon
          have hgd : pending.getD q 0 = j := by
            rw [List.getD_eq_getElem _ 0 hq]
            exact he
          have hqp : q ≠ p := by
            intro hc
            apply hji
            rw [← hgd, hc, hpi]
          rcases Nat.lt_or_ge q p with hq1 | hq1
          · have hj' : (pending.eraseIdx p).getD q 0 = j := by
              rw [getD_eraseIdx_lt pending p q hq1 hp]
              exact hgd
            exact hmem (hj' ▸ getD_mem (l := pending.eraseIdx p) (by omega))
          · have hq2 : p ≤ q - 1 := by omega
            have : (pending.eraseIdx p).getD (q - 1) 0 = j := by
              rw [getD_eraseIdx_ge pending p (q - 1) hq2 hp (by omega)]
              rw [show q - 1 + 1 = q by omega]
              exact hgd
            exact hmem (this ▸ getD_mem (l := pending.eraseIdx p) (by omega))
        have hnone : cpidx cases j = none :=
          wfpc_not_mem_none hwf j hj hjpend
        rw [hcC₁]
        have hcc : cpidx (restampAll ((pending.eraseIdx p).drop p) p cases) j
            = cpidx cases j := by
          unfold cpidx
          rw [restampAll_getD_not_mem _ _ _ _ hjD]
        rw [hcc, hnone]
        simp [hmem]

end Select

namespace Select

variable {α : Type}

theorem pidxEq_clearConsume (w : World α) (i : Nat) :
    PidxEq (clearConsume w i).sel w.sel :=
  ⟨rfl, length_updateAt _ _ _, cpidx_updateAt_preserve _ _ _ fun _ => rfl⟩

/-- `Select.recv` preserves the pidx invariant. -/
theorem recvSel_WF (w : World α) (i : Nat) (hwf : WFsel w.sel) :
    WFsel (recvSel w i).1.sel := by
  simp only [recvSel]
  split
  · exact hwf
  · split
    · rename_i hi
      split
      · rename_i hguard
        split
        · -- recvCase
          split
          · exact wfsel_of_pidxEq (pidxEq_clearConsume _ _) hwf
          · exact wfsel_of_pidxEq (pidxEq_clearConsume _ _) hwf
          · exact hwf
        · -- promCase
          split
          · -- consumed: the splice
            rename_i b hok
            have hg2 : ((getCase w.sel i).pidx.bind
                fun p => w.sel.pending.get? p) = some i := by
              have hand := hguard
              rw [Bool.and_eq_true] at hand
              exact eq_of_beq hand.2
            match hpx : (getCase w.sel i).pidx with
            | none => rw [hpx] at hg2; simp at hg2
            | some p₀ =>
              rw [hpx] at hg2
              simp only [Option.some_bind] at hg2
              rw [List.get?_eq_getElem?] at hg2
              obtain ⟨hp, he⟩ := List.getElem?_eq_some_iff.mp hg2
              have hpi : w.sel.pending.getD p₀ 0 = i := by
                rw [List.getD_eq_getElem _ 0 hp]
                exact he
              have hw₁ := splice_WFpc hwf i p₀ hi hp hpi
              split
              · exact wfsel_of_pidxEq (pidxEq_clearConsume _ _) hw₁
              · exact wfsel_of_pidxEq (pidxEq_clearConsume _ _) hw₁
          · exact hwf
        · -- sendCase
          exact hwf
      · exact hwf
    · exact hwf

end Select

namespace Select

variable {α : Type}

theorem sweepGo_pidxEq :
    ∀ (l : List Nat) (w : World α), PidxEq (sweepGo l w).sel w.sel := by
  intro l
  induction l with
  | nil => intro w; exact pidxEq_refl _
  | cons ci rest ih =>
    intro w
    simp only [sweepGo]
    refine pidxEq_trans (ih _) ?_
    repeat' split
    all_goals first
      | exact pidxEq_refl _
      | exact pidxEq_markCase _ _ _ fun _ => rfl
      | exact pidxEq_trans (pidxEq_markCase _ _ _ fun _ => rfl)
          (pidxEq_markCase _ _ _ fun _ => rfl)

theorem regRecvRestStep_pidxEq (cbIdBase ci chIdx : Nat) (w : World α)
    (fs : Option (Except Thrown Nat)) (tl : Bool) :
    PidxEq (regRecvRestStep cbIdBase ci chIdx w fs tl).1.sel w.sel := by
  simp only [regRecvRestStep]
  repeat' split
  all_goals first
    | exact pidxEq_refl _
    | exact pidxEq_markCase _ _ _ fun _ => rfl
    | exact pidxEq_trans (sweepGo_pidxEq _ _)
        (pidxEq_markCase _ _ _ fun _ => rfl)

theorem regScan_pidxEq (cbIdBase : Nat) :
    ∀ (l : List Nat) (w : World α) (fs : Option (Except Thrown Nat)) (tl : Bool),
    PidxEq (regScan cbIdBase l w fs tl).1.sel w.sel := by
  intro l
  induction l with
  | nil => intro w fs tl; exact pidxEq_refl _
  | cons ci rest ih =>
    intro w fs tl
    simp only [regScan]
    repeat' split
    all_goals first
      | exact ih _ _ _
      | exact pidxEq_trans (ih _ _ _) (pidxEq_markCase _ _ _ fun _ => rfl)
      | exact pidxEq_trans (ih _ _ _)
          (pidxEq_trans (pidxEq_markCase _ _ _ fun _ => rfl)
            (sweepGo_pidxEq _ _))
      | exact pidxEq_trans (ih _ _ _)
          (pidxEq_trans (sweepGo_pidxEq _ _)
            (pidxEq_markCase _ _ _ fun _ => rfl))
      | exact pidxEq_trans (ih _ _ _) (regRecvRestStep_pidxEq _ _ _ _ _ _)

end Select

namespace Select

variable {α : Type}

theorem finishWait_pidxEq (w : World α) (r : Except Thrown Nat) (y : Bool) :
    PidxEq (finishWait w r y).world.sel w.sel := by
  unfold finishWait
  split
  · exact pidxEq_refl _
  · split
    · exact ⟨rfl, rfl, fun _ => rfl⟩
    · exact pidxEq_refl _

/-- `Select.wait` preserves the pidx invariant. -/
theorem waitM_WF (w : World α) (rnds : List Nat) (cbIdBase : Nat)
    (settle : Option (Nat × Bool × Option α)) (genStart : Int)
    (genDelta : Nat) (hwf : WFsel w.sel) :
    WFsel (waitM w rnds cbIdBase settle genStart genDelta).world.sel := by
  have hpoll := poll_WF w rnds hwf
  have hreg : WFsel (regScan cbIdBase (poll w rnds).world.sel.pending
      (poll w rnds).world none true).1.sel :=
    wfsel_of_pidxEq (regScan_pidxEq _ _ _ _ _) hpoll
  simp only [waitM]
  repeat' split
  all_goals first
    | exact hpoll
    | exact hreg
    | exact wfsel_of_pidxEq (finishWait_pidxEq _ _ _) hreg
    | exact wfsel_of_pidxEq (finishWait_pidxEq _ _ _)
        (wfsel_of_pidxEq (sweepGo_pidxEq _ _) hreg)
    | exact wfsel_of_pidxEq (finishWait_pidxEq _ _ _)
        (wfsel_of_pidxEq (pidxEq_markCase _ _ _ fun _ => rfl) hreg)
    | exact wfsel_of_pidxEq (finishWait_pidxEq _ _ _)
        (wfsel_of_pidxEq (sweepGo_pidxEq _ _)
          (wfsel_of_pidxEq (pidxEq_markCase _ _ _ fun _ => rfl) hreg))

end Select

namespace Select

variable {α : Type}

theorem probeSend_waiting (w : World α) (cidx chIdx : Nat) (expr : α) :
    (probeSend w cidx chIdx expr).1.sel.waiting = w.sel.waiting := by
  simp only [probeSend]
  repeat' split
  all_goals rfl

theorem probeRecvRest_waiting (w : World α) (cidx chIdx : Nat) :
    (probeRecvRest w cidx chIdx).1.sel.waiting = w.sel.waiting := by
  simp only [probeRecvRest]
  repeat' split
  all_goals rfl

theorem probeRecv_waiting (w : World α) (cidx chIdx : Nat) :
    (probeRecv w cidx chIdx).1.sel.waiting = w.sel.waiting := by
  simp only [probeRecv]
  repeat' split
  all_goals first
    | rfl
    | exact probeRecvRest_waiting _ _ _

theorem pollScan_waiting :
    ∀ (l : List Nat) (w : World α),
    (pollScan w l).1.sel.waiting = w.sel.waiting := by
  intro l
  induction l with
  | nil => intro w; rfl
  | cons ci rest ih =>
    intro w
    simp only [pollScan]
    split
    · split <;> rfl
    · split
      · rename_i chIdx expr hkind
        split
        · rfl
        · have hps := probeSend_waiting w ci chIdx expr
          rcases hres : probeSend w ci chIdx expr with ⟨w₁, res⟩
          rw [hres] at hps
          cases res with
          | error e => exact hps
          | ok pr =>
            cases pr with
            | ready => exact hps
            | notReady => exact (ih _).trans hps
      · rename_i chIdx hkind
        split
        · rfl
        · have hps := probeRecv_waiting w ci chIdx
          rcases hres : probeRecv w ci chIdx with ⟨w₁, res⟩
          rw [hres] at hps
          cases res with
          | error e => exact hps
          | ok pr =>
            cases pr with
            | ready => exact hps
            | notReady => exact (ih _).trans hps
      · exact ih _

theorem poll_waiting (w : World α) (rnds : List Nat) :
    (poll w rnds).world.sel.waiting = w.sel.waiting := by
  rw [poll_eq]
  split
  · rfl
  · split
    · rw [pollScan_waiting]
      exact consumeNext_waiting _
    · rw [pollScan_waiting]
      exact consumeNext_waiting _

theorem pollScan_reshuffle_of_none :
    ∀ (l : List Nat) (w : World α),
    (pollScan w l).2 = .ok none → (pollScan w l).1.sel.reshuffle = false := by
  intro l
  induction l with
  | nil => intro w _; rfl
  | cons ci rest ih =>
    intro w
    simp only [pollScan]
    split
    · split
      · intro h
        simp at h
      · intro h
        simp at h
    · split
      · rename_i chIdx expr hkind
        split
        · intro h
          simp at h
        · rcases hres : probeSend w ci chIdx expr with ⟨w₁, res⟩
          cases res with
          | error e => intro h; simp at h
          | ok pr =>
            cases pr with
            | ready => intro h; simp at h
            | notReady => exact ih _
      · rename_i chIdx hkind
        split
        · intro h
          simp at h
        · rcases hres : probeRecv w ci chIdx with ⟨w₁, res⟩
          cases res with
          | error e => intro h; simp at h
          | ok pr =>
            cases pr with
            | ready => intro h; simp at h
            | notReady => exact ih _
      · exact ih _

theorem poll_reshuffle_of_none (w : World α) (rnds : List Nat) :
    (poll w rnds).res = .ok none →
    (poll w rnds).world.sel.reshuffle = false := by
  rw [poll_eq]
  by_cases hw : w.sel.waiting = true
  · simp only [hw]
    intro h
    simp at h
  · simp only [hw]
    by_cases hr : (consumeNext w.sel).reshuffle = true
    · simp only [hr]
      intro h
      exact pollScan_reshuffle_of_none _ _ h
    · simp only [hr]
      intro h
      exact pollScan_reshuffle_of_none _ _ h

theorem poll_didShuffle (w : World α) (rnds : List Nat)
    (hw : w.sel.waiting = false) :
    (poll w rnds).didShuffle = w.sel.reshuffle := by
  rw [poll_eq]
  simp only [hw]
  by_cases hr : (consumeNext w.sel).reshuffle = true
  · simp only [hr]
    rw [consumeNext_reshuffle] at hr
    exact hr.symm
  · simp only [hr]
    rw [consumeNext_reshuffle] at hr
    simp only [Bool.not_eq_true] at hr
    exact hr.symm

theorem poll_pending (w : World α) (rnds : List Nat)
    (hw : w.sel.waiting = false) :
    (poll w rnds).world.sel.pending =
      if w.sel.reshuffle then
        (fisherYatesShuffle w.sel.pending (consumeNext w.sel).cases rnds).1
      else w.sel.pending := by
  rw [poll_eq]
  by_cases hr : (consumeNext w.sel).reshuffle = true
  · have hr' : w.sel.reshuffle = true := by
      rw [← consumeNext_reshuffle w.sel]
      exact hr
    simp only [hw, hr, hr', Bool.false_eq_true, if_false, if_true]
    rw [(pollScan_pidxEq _ _).1]
    show (fisherYatesShuffle (consumeNext w.sel).pending
      (consumeNext w.sel).cases rnds).1 = _
    rw [consumeNext_pending]
  · have hr' : w.sel.reshuffle = false := by
      rw [← consumeNext_reshuffle w.sel]
      simpa using hr
    simp only [hw, hr, hr', Bool.false_eq_true, if_false, if_true]
    rw [(pollScan_pidxEq _ _).1]
    show (consumeNext w.sel).pending = _
    rw [consumeNext_pending]

end Select

namespace Select

variable {α : Type}

theorem finishWait_yielded (w : World α) (r : Except Thrown Nat) (y : Bool) :
    (finishWait w r y).yielded = y := by
  unfold finishWait
  split
  · rfl
  · split <;> rfl

/-- Every returning path of `wait` reports the macrotask yield awaited
exactly when the generation is unchanged; a wait that never returns
reports no yield. -/
theorem waitM_yielded_char (w : World α) (rnds : List Nat) (cbIdBase : Nat)
    (settle : Option (Nat × Bool × Option α)) (genStart : Int)
    (genDelta : Nat) :
    (waitM w rnds cbIdBase settle genStart genDelta).yielded
      = (genAdvance genStart genDelta == genStart) ∨
    ((waitM w rnds cbIdBase settle genStart genDelta).res = none ∧
      (waitM w rnds cbIdBase settle genStart genDelta).yielded = false) := by
  simp only [waitM]
  repeat' split
  all_goals first
    | exact Or.inl rfl
    | exact Or.inl (finishWait_yielded _ _ _)
    | exact Or.inr ⟨rfl, rfl⟩

end Select

/-- C10: after construction and after every completed public `Select`
operation (`poll`, `wait`, `recv`), every index `p` into the pending
array satisfies `pending[p].pidx = p`; and a case state's `pidx` is
defined exactly when the case is still a member of the pending array (in
particular a promise case consumed by `recv`, spliced out of pending,
has `pidx` undefined).  `Select.WFsel` states precisely this (together
with duplicate-freeness of the pending array): it holds after `mkSelect`
and is preserved by `poll`, `recvSel` and `waitM`. -/
theorem select_pidx_invariant :
    (∀ (α : Type) (kinds : List (CaseKind α)) (chans : List (Chan α))
      (rnds : List Nat),
      Select.WFsel (Select.mkSelect kinds chans rnds).sel) ∧
    (∀ (α : Type) (w : World α) (rnds : List Nat), Select.WFsel w.sel →
      Select.WFsel (Select.poll w rnds).world.sel) ∧
    (∀ (α : Type) (w : World α) (i : Nat), Select.WFsel w.sel →
      Select.WFsel (Select.recvSel w i).1.sel) ∧
    (∀ (α : Type) (w : World α) (rnds : List Nat) (cbIdBase : Nat)
      (settle : Option (Nat × Bool × Option α)) (genStart : Int)
      (genDelta : Nat), Select.WFsel w.sel →
      Select.WFsel (Select.waitM w rnds cbIdBase settle genStart
        genDelta).world.sel) :=
  ⟨fun _ => Select.mkSelect_WF,
   fun _ => Select.poll_WF,
   fun _ => Select.recvSel_WF,
   fun _ => Select.waitM_WF⟩

/-- Witness for C10: a two-promise select; the invariant holds after
construction, after a `poll`, after a `recv`, and after a `wait` whose
first promise case settles. -/
theorem select_pidx_invariant_witness :
    Select.WFsel (Select.mkSelect [(CaseKind.promCase : CaseKind Nat),
      CaseKind.promCase] [] [1]).sel ∧
    Select.WFsel (Select.poll (Select.mkSelect
      [(CaseKind.promCase : CaseKind Nat), CaseKind.promCase] [] [1])
      []).world.sel ∧
    Select.WFsel (Select.recvSel (Select.mkSelect
      [(CaseKind.promCase : CaseKind Nat), CaseKind.promCase] [] [1])
      0).1.sel ∧
    Select.WFsel (Select.waitM (Select.mkSelect
      [(CaseKind.promCase : CaseKind Nat), CaseKind.promCase] [] [1])
      [] 100 (some (0, true, some 5)) 0 1).world.sel :=
  ⟨select_pidx_invariant.1 Nat _ _ _,
   select_pidx_invariant.2.1 Nat _ _ (by decide),
   select_pidx_invariant.2.2.1 Nat _ _ (by decide),
   select_pidx_invariant.2.2.2 Nat _ _ _ _ _ _ (by decide)⟩

/-- C2 (counterexample): a two-promise select whose construction leaves
`pending = [0, 1]`.  The first `poll` returns nothing (`.ok none`), yet
the second `poll` does not shuffle (`didShuffle = false`, pending
unchanged) — even though a Fisher-Yates shuffle with the supplied random
draw would have produced `[1, 0]`.  The claim's trigger ("if the prior
poll returned nothing, re-shuffle") is the opposite of the code's. -/
theorem select_poll_shuffle_counterexample :
    (Select.mkSelect [(CaseKind.promCase : CaseKind Nat), CaseKind.promCase]
      [] [1]).sel.pending = [0, 1] ∧
    (Select.poll (Select.mkSelect [(CaseKind.promCase : CaseKind Nat),
      CaseKind.promCase] [] [1]) []).res = .ok none ∧
    (Select.poll (Select.poll (Select.mkSelect
      [(CaseKind.promCase : CaseKind Nat), CaseKind.promCase] [] [1])
      []).world [0]).didShuffle = false ∧
    (Select.poll (Select.poll (Select.mkSelect
      [(CaseKind.promCase : CaseKind Nat), CaseKind.promCase] [] [1])
      []).world [0]).world.sel.pending = [0, 1] ∧
    (Select.fisherYatesShuffle (Select.poll (Select.mkSelect
      [(CaseKind.promCase : CaseKind Nat), CaseKind.promCase] [] [1])
      []).world.sel.pending (Select.poll (Select.mkSelect
      [(CaseKind.promCase : CaseKind Nat), CaseKind.promCase] [] [1])
      []).world.sel.cases [0]).1 = [1, 0] :=
  ⟨rfl, rfl, rfl, rfl, rfl⟩

/-- C2 (amended): on a non-reentrant `poll`, the pending set is
re-shuffled with Fisher-Yates exactly when the `#reshuffle` flag is set
(and each case's `pendingIndex` is then re-stamped to its new position,
given the pidx invariant); but the flag is *cleared* — not set — by a
poll that returns nothing, so after a poll that returned nothing the
next poll does not shuffle and leaves the pending order unchanged. -/
theorem select_poll_shuffle_amended (α : Type) (w : World α)
    (rnds rnds₂ : List Nat) (hw : w.sel.waiting = false) :
    ((Select.poll w rnds).didShuffle = w.sel.reshuffle) ∧
    ((Select.poll w rnds).world.sel.pending =
      if w.sel.reshuffle then
        (Select.fisherYatesShuffle w.sel.pending
          (Select.consumeNext w.sel).cases rnds).1
      else w.sel.pending) ∧
    (Select.WFsel w.sel →
      ∀ q, q < (Select.poll w rnds).world.sel.pending.length →
      Select.cpidx (Select.poll w rnds).world.sel.cases
        ((Select.poll w rnds).world.sel.pending.getD q 0) = some q) ∧
    ((Select.poll w rnds).res = .ok none →
      (Select.poll w rnds).world.sel.reshuffle = false ∧
      (Select.poll (Select.poll w rnds).world rnds₂).didShuffle = false ∧
      (Select.poll (Select.poll w rnds).world rnds₂).world.sel.pending
        = (Select.poll w rnds).world.sel.pending) := by
  refine ⟨Select.poll_didShuffle w rnds hw, Select.poll_pending w rnds hw,
    ?_, ?_⟩
  · intro hwf q hq
    exact ((Select.poll_WF w rnds hwf).2.1 q hq).2
  · intro h
    have hflag := Select.poll_reshuffle_of_none w rnds h
    have hw₂ : (Select.poll w rnds).world.sel.waiting = false := by
      rw [Select.poll_waiting]
      exact hw
    refine ⟨hflag, ?_, ?_⟩
    · rw [Select.poll_didShuffle _ _ hw₂]
      exact hflag
    · rw [Select.poll_pending _ _ hw₂, hflag]
      simp

/-- Witness for C2 (amended): a one-promise select, freshly built
(`waiting = false`, `reshuffle = false`): the poll reports no shuffle,
matching the flag. -/
theorem select_poll_shuffle_amended_witness :
    (Select.mkSelect [(CaseKind.promCase : CaseKind Nat)] [] []).sel.waiting
      = false ∧
    (Select.poll (Select.mkSelect [(CaseKind.promCase : CaseKind Nat)] [] [])
        [3]).didShuffle
      = (Select.mkSelect [(CaseKind.promCase : CaseKind Nat)] [] []).sel.reshuffle :=
  ⟨rfl, (select_poll_shuffle_amended Nat _ [3] [] rfl).1⟩

/-- C3 (counterexample): `Chan.send` on a fresh buffered channel
completes synchronously — the returned promise resolves during the
synchronous phase of the call itself, before any macrotask can run, so
the call neither yields nor observes an advanced generation; the
subsequent `Chan.recv` likewise resolves synchronously with the sent
value.  (`chan.ts` contains no yield call at all.) -/
theorem chan_send_recv_yield_counterexample :
    (((Chan.new Nat 1 none).sendStart 42 none 0).2
      = Chan.OpStart.resolved ()) ∧
    ((((Chan.new Nat 1 none).sendStart 42 none 0).1.recvStart none 1).2
      = Chan.OpStart.resolved { value := some 42, done := none }) :=
  ⟨rfl, rfl⟩

/-- C3 (amended): `Select.wait` awaits the macrotask yield exactly when
the yield generation observed on return equals the one captured at
entry, on every returning path; `Chan.send` and `Chan.recv` never
yield — a send accepted by `trySend` and a receive satisfied by
`tryRecv` resolve within the synchronous phase of the call. -/
theorem chan_select_yield_amended (α : Type) (w : World α) (rnds : List Nat)
    (cbIdBase : Nat) (settle : Option (Nat × Bool × Option α))
    (genStart : Int) (genDelta : Nat) (ch : Chan α) (v : α) (cid : Nat)
    (hres : (Select.waitM w rnds cbIdBase settle genStart
      genDelta).res.isSome = true) :
    ((Select.waitM w rnds cbIdBase settle genStart genDelta).yielded
      = (Select.genAdvance genStart genDelta == genStart)) ∧
    ((ch.trySend v).2 = .ok true →
      (ch.sendStart v none cid).2 = Chan.OpStart.resolved ()) ∧
    (∀ r, ch.tryRecv.2 = .ok (some r) →
      (ch.recvStart none cid).2 = Chan.OpStart.resolved r) := by
  refine ⟨?_, ?_, ?_⟩
  · rcases Select.waitM_yielded_char w rnds cbIdBase settle genStart genDelta
      with h | ⟨hnone, _⟩
    · exact h
    · rw [hnone] at hres
      simp at hres
  · intro h
    simp only [Chan.sendStart]
    rcases hts : ch.trySend v with ⟨ch₁, r⟩
    rw [hts] at h
    replace h : r = .ok true := h
    subst h
    rfl
  · intro r h
    simp only [Chan.recvStart]
    rcases htr : ch.tryRecv with ⟨ch₁, rr⟩
    rw [htr] at h
    replace h : rr = .ok (some r) := h
    subst h
    rfl

/-- Witness for C3 (amended): a one-promise select whose promise settles
after one macrotask tick returns and — the generation having advanced —
did not await the yield. -/
theorem chan_select_yield_amended_witness :
    ((Select.waitM (Select.mkSelect [(CaseKind.promCase : CaseKind Nat)] [] [])
        [] 100 (some (0, true, some 5)) 0 1).res.isSome = true) ∧
    ((Select.waitM (Select.mkSelect [(CaseKind.promCase : CaseKind Nat)] [] [])
        [] 100 (some (0, true, some 5)) 0 1).yielded
      = (Select.genAdvance 0 1 == 0)) :=
  ⟨by decide, (chan_select_yield_amended Nat _ [] 100 (some (0, true, some 5))
      0 1 (Chan.new Nat 1 none) 42 7 (by decide)).1⟩

end TsChan
